import Mathlib

/-!
# GGUF quantized block extraction (`gguf_quants.cpp`)

A shallow embedding of `src/cpp/src/gguf_utils/gguf_quants.cpp`.

* A buffer reached through a `uint8_t*` (or a half-float pointer) is a list of
  natural numbers together with an offset; a read or a write outside the
  buffer is undefined behaviour in C++ and is `none` here.
* `uint8_t` arithmetic is arithmetic on `Nat` with an explicit `% 256`
  wherever the C++ code narrows an `int` back to `uint8_t`.
* An exception thrown by `OPENVINO_ASSERT` is recorded in the result together
  with the state of the name map at the moment it is thrown.
-/

namespace GGUFQuants

/-! ## Memory -/

/-- Storage reached through a pointer: bytes for `uint8_t*`, 16-bit patterns
for a half-float pointer. -/
abbrev Buffer := List Nat

/-- Read `buf[i]`; `none` outside the buffer. -/
def load (buf : Buffer) (i : Nat) : Option Nat := buf[i]?

/-- Write `buf[i] = v`; `none` outside the buffer. -/
def store (buf : Buffer) (i v : Nat) : Option Buffer :=
  if i < buf.length then some (buf.set i v) else none

/-- Iterations `j, j+1, ..., j+count-1` of a counting loop over a state that
may fault. -/
def forLoopFrom {σ : Type} (body : Nat → σ → Option σ) : Nat → Nat → σ → Option σ
  | 0, _, s => some s
  | count + 1, j, s => (body j s).bind (forLoopFrom body count (j + 1))

/-- The loop `for (j = 0; j < n; ++j) body`. -/
def forLoop {σ : Type} (n : Nat) (body : Nat → σ → Option σ) (s : σ) : Option σ :=
  forLoopFrom body n 0 s

/-- The call `std::fill_n(dst + off, n, v)`. -/
def fill_n (dst : Buffer) (off n v : Nat) : Option Buffer :=
  forLoop n (fun j d => store d (off + j) v) dst

/-- The 16-bit value read by `*((uint16_t*)p + k)` with `p = data + off`, on a
little-endian host. -/
def read_u16 (data : Buffer) (off k : Nat) : Option Nat := do
  let b0 ← load data (off + 2 * k)
  let b1 ← load data (off + 2 * k + 1)
  some (b0 + 256 * b1)

/-! ## The nibble unpacker -/

/-- Source lines 14-31: `unpack_32_4(data + dp, dst + wp)`, where `data` and `dst`
are the buffers the two pointers point into. -/
def unpack_32_4 (data : Buffer) (dp : Nat) (dst : Buffer) (wp : Nat) : Option Buffer := do
  let dst ← fill_n dst wp 16 0
  let dst ← forLoop 16 (fun j dst => do
    let b ← load data (dp + (j + 2))
    let x := b &&& 0x0F
    let x := if j % 2 != 0 then (x <<< 4) % 256 else x
    let d ← load dst (wp + j / 2)
    store dst (wp + j / 2) (d ||| x)) dst
  forLoop 16 (fun j dst => do
    let b ← load data (dp + (j + 2))
    let x := b >>> 4
    let x := if j % 2 != 0 then (x <<< 4) % 256 else x
    let d ← load dst (wp + (8 + j / 2))
    store dst (wp + (8 + j / 2)) (d ||| x)) dst

/-! ## Tensors -/

/-- The two element types used for the outputs (`ov::element::u32`,
`ov::element::f16`). -/
inductive ElementType
  | u32
  | f16
deriving DecidableEq, Repr

/-- An `ov::Tensor`: element type, shape and storage. The storage of a `u32`
tensor is listed byte by byte (4 bytes per element, the view taken by
`static_cast<uint8_t*>(weights_arr.data())`); the storage of an `f16` tensor is
listed element by element, each element being its 16-bit pattern. -/
structure Tensor where
  element_type : ElementType
  shape : List Nat
  data : Buffer
deriving DecidableEq, Repr

/-- The value of `ov::Tensor::get_size()`: the number of elements. -/
def Tensor.get_size (t : Tensor) : Nat := t.shape.prod

/-- What the code takes from its host and from headers outside this file:
`f16_scale k b` is the bit pattern of `ov::float16(k * static_cast<float>(x))`
for the half-float `x` of bit pattern `b`, and `uninit r i` is the indeterminate
initial content of cell `i` of the `r`-th tensor allocated by a call. -/
structure Host where
  f16_scale : Int → Nat → Nat
  uninit : Nat → Nat → Nat

/-- The constructor `ov::Tensor(type, shape)`: storage of the right size with
indeterminate content (`r` numbers the allocation). -/
def Tensor.alloc (h : Host) (r : Nat) (et : ElementType) (shape : List Nat) : Tensor :=
  match et with
  | .u32 => ⟨et, shape, (List.range (4 * shape.prod)).map (fun i => h.uninit r i % 256)⟩
  | .f16 => ⟨et, shape, (List.range shape.prod).map (fun i => h.uninit r i % 65536)⟩

/-- The enumeration `gguf_tensor_type` as far as this file distinguishes its
values; `other tag` stands for every remaining enumerator. -/
inductive gguf_tensor_type
  | GGUF_TYPE_Q4_0
  | GGUF_TYPE_Q4_1
  | GGUF_TYPE_Q8_0
  | other (tag : Nat)
deriving DecidableEq, Repr

open gguf_tensor_type

/-- The fields of `gguf_tensor` the code reads: `name` is the string
`std::string(tensor.name, tensor.namelen)`, `shape` is the value of
`get_shape(tensor)` (defined outside this file), `weights_data` is the byte
buffer the pointer of that name points to. -/
structure gguf_tensor where
  name : List Char
  type : gguf_tensor_type
  shape : List Nat
  weights_data : Buffer
deriving DecidableEq, Repr

/-- The call `get_shape(tensor)`. -/
def get_shape (tensor : gguf_tensor) : List Nat := tensor.shape

/-- The pointers and output buffers an extractor loop works on: `data` and
`weights` are the offsets of the pointers of these names, the three buffers are
the storage of `weights_arr`, `scales_arr` and `biases_arr`. -/
structure ExtractState where
  data : Nat
  weights : Nat
  wbuf : Buffer
  scales : Buffer
  biases : Buffer
deriving DecidableEq, Repr

/-! ## The block extractors -/

/-- Source lines 35-52. -/
def extract_q4_0_data (h : Host) (tensor : gguf_tensor)
    (weights_arr scales_arr biases_arr : Tensor) : Option (Tensor × Tensor × Tensor) := do
  let bytes_per_block := 18
  let st ← forLoop scales_arr.get_size (fun i (st : ExtractState) => do
    let s ← read_u16 tensor.weights_data st.data 0
    let scales ← store st.scales i s
    let si ← load scales i
    let biases ← store st.biases i (h.f16_scale (-8) si)
    let wbuf ← unpack_32_4 tensor.weights_data st.data st.wbuf st.weights
    some ⟨st.data + bytes_per_block, st.weights + 16, wbuf, scales, biases⟩)
    ⟨0, 0, weights_arr.data, scales_arr.data, biases_arr.data⟩
  some ({ weights_arr with data := st.wbuf }, { scales_arr with data := st.scales },
    { biases_arr with data := st.biases })

/-- Source lines 56-74. -/
def extract_q4_1_data (tensor : gguf_tensor)
    (weights_arr scales_arr biases_arr : Tensor) : Option (Tensor × Tensor × Tensor) := do
  let bytes_per_block := 20
  let st ← forLoop scales_arr.get_size (fun i (st : ExtractState) => do
    let s ← read_u16 tensor.weights_data st.data 0
    let scales ← store st.scales i s
    let b ← read_u16 tensor.weights_data st.data 1
    let biases ← store st.biases i b
    let wbuf ← unpack_32_4 tensor.weights_data st.data st.wbuf st.weights
    some ⟨st.data + bytes_per_block, st.weights + 16, wbuf, scales, biases⟩)
    ⟨0, 0, weights_arr.data, scales_arr.data, biases_arr.data⟩
  some ({ weights_arr with data := st.wbuf }, { scales_arr with data := st.scales },
    { biases_arr with data := st.biases })

/-- Source lines 78-101. -/
def extract_q8_0_data (h : Host) (tensor : gguf_tensor)
    (weights_arr scales_arr biases_arr : Tensor) : Option (Tensor × Tensor × Tensor) := do
  let weights_per_block := 32
  let bytes_per_block := 34
  let st ← forLoop scales_arr.get_size (fun i (st : ExtractState) => do
    let block_data := st.data + i * bytes_per_block
    let s ← read_u16 tensor.weights_data block_data 0
    let scales ← store st.scales i s
    let si ← load scales i
    let biases ← store st.biases i (h.f16_scale (-128) si)
    let wbuf ← forLoop weights_per_block (fun j wbuf => do
      let x ← load tensor.weights_data (block_data + (j + 2))
      let x := (x ^^^ (1 <<< 7)) % 256
      store wbuf (st.weights + (i * weights_per_block + j)) x) st.wbuf
    some ⟨st.data, st.weights, wbuf, scales, biases⟩)
    ⟨0, 0, weights_arr.data, scales_arr.data, biases_arr.data⟩
  some ({ weights_arr with data := st.wbuf }, { scales_arr with data := st.scales },
    { biases_arr with data := st.biases })

/-! ## The tensor assembler -/

/-- The failures `OPENVINO_ASSERT` can raise in `gguf_load_quantized`, each with
the values its message is built from: line 117 streams the tensor name and
`shape.back()`, line 143 has no message arguments, line 149 streams
`inserted.first->second.data()`, the data pointer of the tensor found in the
map, kept here as that tensor. -/
inductive LoadError
  | incompatible_last_dim (name : List Char) (last : Nat)
  | unsupported_type
  | duplicate_parameter (found : Tensor)
deriving DecidableEq, Repr

/-- The macro `OPENVINO_ASSERT(cond, msg...)`: throws when its first argument
converts to `false`. -/
def OPENVINO_ASSERT (cond : Bool) (e : LoadError) : Except LoadError Unit :=
  if cond then .ok () else .error e

/-- The map `std::unordered_map<std::string, ov::Tensor>` as an association
list; the order of the list carries no meaning. -/
abbrev TensorMap := List (List Char × Tensor)

/-- The call `a.emplace(key, value)`: the map afterwards, the element the
returned iterator points to and the flag telling whether an insertion took
place. An existing element is never replaced. -/
def emplace (a : TensorMap) (key : List Char) (value : Tensor) :
    TensorMap × ((List Char × Tensor) × Bool) :=
  match a.lookup key with
  | some found => (a, ((key, found), false))
  | none => (a ++ [(key, value)], ((key, value), true))

/-- The call `s.substr(pos, count)` for `pos ≤ s.size()`. -/
def substr (s : List Char) (pos count : Nat) : List Char := (s.drop pos).take count

/-- The call `shape.back()`; `none` on an empty vector, where it is undefined. -/
def back (shape : List Nat) : Option Nat := shape.getLast?

/-- The assignment `shape[shape.size() - 1] = v` (also `shape.back() = v`). -/
def set_back (shape : List Nat) (v : Nat) : List Nat := shape.set (shape.length - 1) v

/-- Source lines 106-144 of `gguf_load_quantized`: everything up to the first
insertion. The result is `none` for undefined behaviour, an error for a
failed assertion, and otherwise the name with the three filled tensors.
`ov::Tensor` takes its shape by constant reference, so `std::move(shape)`
leaves `shape` intact for the second half-float tensor. The byte counts
`w_nbytes` and `sb_nbytes` are computed by the source and never used. -/
def gguf_load_quantized_tensors (h : Host) (tensor : gguf_tensor) :
    Option (Except LoadError (List Char × Tensor × Tensor × Tensor)) :=
  let weights_per_byte :=
    if tensor.type = GGUF_TYPE_Q4_0 ∨ tensor.type = GGUF_TYPE_Q4_1 then 2 else 1
  let name := tensor.name
  let shape := get_shape tensor
  let weights_per_block := 32
  match back shape with
  | none => none
  | some last =>
    match OPENVINO_ASSERT (last % weights_per_block == 0) (.incompatible_last_dim name last) with
    | .error e => some (.error e)
    | .ok _ =>
      let weights_shape := set_back shape (last / (weights_per_byte * 4))
      let weights := Tensor.alloc h 0 .u32 weights_shape
      let shape := set_back shape (last / weights_per_block)
      let scales := Tensor.alloc h 1 .f16 shape
      let biases := Tensor.alloc h 2 .f16 shape
      if tensor.type = GGUF_TYPE_Q4_0 then
        (extract_q4_0_data h tensor weights scales biases).map
          (fun r => .ok (name, r.1, r.2.1, r.2.2))
      else if tensor.type = GGUF_TYPE_Q4_1 then
        (extract_q4_1_data tensor weights scales biases).map
          (fun r => .ok (name, r.1, r.2.1, r.2.2))
      else if tensor.type = GGUF_TYPE_Q8_0 then
        (extract_q8_0_data h tensor weights scales biases).map
          (fun r => .ok (name, r.1, r.2.1, r.2.2))
      else
        -- `OPENVINO_ASSERT("Unsupported ...")`: the condition is a string
        -- literal, a non-null pointer, which converts to `true`.
        match OPENVINO_ASSERT true .unsupported_type with
        | .error e => some (.error e)
        | .ok _ => some (.ok (name, weights, scales, biases))

/-- The outcome of a call of `gguf_load_quantized`: the name map as the call
leaves it and the exception it ends with, if any. -/
structure LoadResult where
  map : TensorMap
  error : Option LoadError
deriving DecidableEq, Repr

/-- Source lines 103-156: `gguf_load_quantized(a, tensor)`; `none` is undefined
behaviour. The length difference of line 153 is computed in `size_t` (64 bits)
and `substr` clips the count to the length of the string. -/
def gguf_load_quantized (h : Host) (a : TensorMap) (tensor : gguf_tensor) :
    Option LoadResult :=
  match gguf_load_quantized_tensors h tensor with
  | none => none
  | some (.error e) => some ⟨a, some e⟩
  | some (.ok (name, weights, scales, biases)) =>
    let a := (emplace a name weights).1
    let check_insert := fun (inserted : (List Char × Tensor) × Bool) =>
      OPENVINO_ASSERT inserted.2 (.duplicate_parameter inserted.1.2)
    let weight_suffix := ".weight".toList
    let name_prefix :=
      substr name 0 ((name.length + 2 ^ 64 - weight_suffix.length) % 2 ^ 64)
    let r := emplace a ( name_prefix ++ ".scales".toList) scales
    match check_insert r.2 with
    | .error e => some ⟨r.1, some e⟩
    | .ok _ =>
      let r := emplace r.1 ( name_prefix ++ ".biases".toList) biases
      match check_insert r.2 with
      | .error e => some ⟨r.1, some e⟩
      | .ok _ => some ⟨r.1, none⟩

/-! ## Auxiliary definitions used in the statements and proofs -/

/-- One iteration of a loop that reads the source byte `src j` and ORs the
value `g j byte` into the destination byte `pos j`. -/
def orInto (data : Buffer) (src pos : Nat → Nat) (g : Nat → Nat → Nat) (j : Nat)
    (dst : Buffer) : Option Buffer :=
  (load data (src j)).bind fun b =>
    (load dst (pos j)).bind fun d => store dst (pos j) (d ||| g j b)

/-- The content of destination cell `i` after iterations `j, ..., j+count-1` of
`orInto`, when it held `v` before. -/
def orAcc (data : Buffer) (src pos : Nat → Nat) (g : Nat → Nat → Nat) :
    Nat → Nat → Nat → Nat → Nat
  | 0, _, _, v => v
  | count + 1, j, i, v =>
    orAcc data src pos g count (j + 1) i
      (if pos j = i then v ||| g j (data.getD (src j) 0) else v)

/-- The 4-bit code at logical position `p` of a packed buffer: byte `p / 2`,
low nibble when `p` is even, high nibble when `p` is odd. -/
def code_at (out : Buffer) (p : Nat) : Nat :=
  (out.getD (p / 2) 0 >>> (4 * (p % 2))) &&& 0x0F

/-- The output byte the first loop of `unpack_32_4` builds from the source
bytes `a = data[2k+2]` and `b = data[2k+3]`. -/
def pack_lo (a b : Nat) : Nat := (a &&& 0x0F) ||| (((b &&& 0x0F) <<< 4) % 256)

/-- The output byte the second loop of `unpack_32_4` builds from the source
bytes `a = data[2k+2]` and `b = data[2k+3]`. -/
def pack_hi (a b : Nat) : Nat := (a >>> 4) ||| (((b >>> 4) <<< 4) % 256)

/-- The common shape of one iteration of the two 4-bit extractor loops:
`bs` is the block size and `mkBias dp scales i` the bias stored for block `i`,
computed from the block at offset `dp` and the scales written so far. -/
def q4_step (data : Buffer) (bs : Nat) (mkBias : Nat → Buffer → Nat → Option Nat)
    (i : Nat) (st : ExtractState) : Option ExtractState :=
  (read_u16 data st.data 0).bind fun s =>
    (store st.scales i s).bind fun scales =>
      (mkBias st.data scales i).bind fun b =>
        (store st.biases i b).bind fun biases =>
          (unpack_32_4 data st.data st.wbuf st.weights).bind fun wbuf =>
            some ⟨st.data + bs, st.weights + 16, wbuf, scales, biases⟩

/-- The weight byte of index `idx` that a 4-bit extractor with block size `bs`
produces from the input `data`: block `idx / 16`, packed from the source bytes
at block offsets `2 ..< 18`. -/
def q4_weight_byte (data : Buffer) (bs idx : Nat) : Nat :=
  if idx % 16 < 8 then
    pack_lo (data.getD (bs * (idx / 16) + (2 + 2 * (idx % 16))) 0)
      (data.getD (bs * (idx / 16) + (2 + 2 * (idx % 16) + 1)) 0)
  else
    pack_hi (data.getD (bs * (idx / 16) + (2 + 2 * (idx % 16 - 8))) 0)
      (data.getD (bs * (idx / 16) + (2 + 2 * (idx % 16 - 8) + 1)) 0)

/-- The inner loop of `extract_q8_0_data` for block `i`: lines 93-99. -/
def q8_inner (data : Buffer) (block_data weights i : Nat) (wbuf : Buffer) : Option Buffer :=
  forLoop 32 (fun j wbuf =>
    (load data (block_data + (j + 2))).bind fun x =>
      store wbuf (weights + (i * 32 + j)) ((x ^^^ (1 <<< 7)) % 256)) wbuf

/-- One iteration of the outer loop of `extract_q8_0_data`: lines 90-99. -/
def q8_step (h : Host) (data : Buffer) (i : Nat) (st : ExtractState) : Option ExtractState :=
  (read_u16 data (st.data + i * 34) 0).bind fun s =>
    (store st.scales i s).bind fun scales =>
      (load scales i).bind fun si =>
        (store st.biases i (h.f16_scale (-128) si)).bind fun biases =>
          (q8_inner data (st.data + i * 34) st.weights i st.wbuf).bind fun wbuf =>
            some ⟨st.data, st.weights, wbuf, scales, biases⟩

/-- The weight byte of index `idx` that `extract_q8_0_data` produces from the
input `data`. -/
def q8_weight_byte (data : Buffer) (idx : Nat) : Nat :=
  (data.getD (34 * (idx / 32) + (2 + idx % 32)) 0 ^^^ (1 <<< 7)) % 256

/-- The 16-bit little-endian value formed by the bytes `off` and `off + 1`. -/
def u16_at (data : Buffer) (off : Nat) : Nat :=
  data.getD off 0 + 256 * data.getD (off + 1) 0

/-- A host for the concrete instances: its half-float product is a stand-in
(the bit pattern plus the factor, modulo 2^16) and fresh storage holds `0xAA`. -/
def sample_host : Host := ⟨fun k b => ((k + b) % 65536).toNat, fun _ _ => 0xAA⟩

/-- Two blocks of the 18-byte format: scales `0x3C00` and `0x4000`, the code
bytes of the first block are `0x10 .. 0x1F`, those of the second `0xF0 .. 0xFF`. -/
def sample_q4_0 : gguf_tensor :=
  ⟨"blk.0.weight".toList, GGUF_TYPE_Q4_0, [64],
    [0x00, 0x3C] ++ (List.range 16).map (· + 0x10) ++
    [0x00, 0x40] ++ (List.range 16).map (· + 0xF0)⟩

/-- One block of the 20-byte format: scale `0x3C00`, bias bytes `0xFF 0xFF`,
and 16 code bytes that are all zero. -/
def sample_q4_1 : gguf_tensor :=
  ⟨"blk.0.weight".toList, GGUF_TYPE_Q4_1, [32],
    [0x00, 0x3C, 0xFF, 0xFF] ++ List.replicate 16 0⟩

/-- Two blocks of the 34-byte format: scales `0x3C00` and `0x4000`, the code
bytes of the first block are `0 .. 31`, those of the second `224 .. 255`. -/
def sample_q8_0 : gguf_tensor :=
  ⟨"blk.0.weight".toList, GGUF_TYPE_Q8_0, [64],
    [0x00, 0x3C] ++ List.range 32 ++ [0x00, 0x40] ++ (List.range 32).map (· + 224)⟩

/-- The block size fixed in the extractor of each supported type (source
lines 40, 61 and 84). -/
def bytes_per_block : gguf_tensor_type → Nat
  | GGUF_TYPE_Q4_0 => 18
  | GGUF_TYPE_Q4_1 => 20
  | GGUF_TYPE_Q8_0 => 34
  | other _ => 0

/-- The base name of line 153: `name.substr(0, name.length() - 7)`, with the
difference taken in `size_t`. -/
def derived_base (name : List Char) : List Char :=
  substr name 0 ((name.length + 2 ^ 64 - ".weight".toList.length) % 2 ^ 64)

/-- The input contract of `gguf_load_quantized`: a supported type, a non-empty
shape whose last dimension is a multiple of 32, a buffer that holds the blocks
and a name whose length fits `size_t`. -/
def valid_tensor (t : gguf_tensor) : Prop :=
  (t.type = GGUF_TYPE_Q4_0 ∨ t.type = GGUF_TYPE_Q4_1 ∨ t.type = GGUF_TYPE_Q8_0) ∧
  t.name.length < 2 ^ 64 ∧
  ∃ init last, get_shape t = init ++ [last] ∧ last % 32 = 0 ∧
    bytes_per_block t.type * (init.prod * (last / 32)) ≤ t.weights_data.length

/-- The code stored for the input byte `x` by lines 94-98 of
`extract_q8_0_data`: `x ^= 1 << 7`, narrowed to `uint8_t`. -/
def q8_code (x : Nat) : Nat := (x ^^^ (1 <<< 7)) % 256

/-- The value of a byte read as a two's-complement `int8_t`. -/
def int8_of_byte (b : Nat) : Int := if b < 128 then (b : Int) else (b : Int) - 256

/-- The number of weight bytes each block step writes (16 in the 4-bit
extractors, 32 in the 8-bit one). -/
def weight_bytes_per_block : gguf_tensor_type → Nat
  | GGUF_TYPE_Q4_0 => 16
  | GGUF_TYPE_Q4_1 => 16
  | GGUF_TYPE_Q8_0 => 32
  | other _ => 0

/-- The weight byte of index `idx` the extractor of type `t` produces. -/
def weight_byte (t : gguf_tensor_type) (data : Buffer) (idx : Nat) : Nat :=
  match t with
  | GGUF_TYPE_Q4_0 => q4_weight_byte data 18 idx
  | GGUF_TYPE_Q4_1 => q4_weight_byte data 20 idx
  | GGUF_TYPE_Q8_0 => q8_weight_byte data idx
  | other _ => 0

/-- The scale pattern of block `i` the extractor of type `t` stores. -/
def scale_bits (t : gguf_tensor_type) (data : Buffer) (i : Nat) : Nat :=
  u16_at data (bytes_per_block t * i)

/-- The bias pattern of block `i` the extractor of type `t` stores. -/
def bias_bits (h : Host) (t : gguf_tensor_type) (data : Buffer) (i : Nat) : Nat :=
  match t with
  | GGUF_TYPE_Q4_0 => h.f16_scale (-8) (u16_at data (18 * i))
  | GGUF_TYPE_Q4_1 => u16_at data (20 * i + 2)
  | GGUF_TYPE_Q8_0 => h.f16_scale (-128) (u16_at data (34 * i))
  | other _ => 0

/-- The packing that undoes `unpack_32_4`: source code byte `j` has the code at
position `j` of the output as its low nibble and the code at position `16 + j`
as its high nibble. -/
def pack_32_4 (out : Buffer) : Buffer :=
  (List.range 16).map (fun j => code_at out j ||| (code_at out (16 + j) <<< 4))

/-! ## Half-precision values -/

/-- Modelled from the spec: the half-float type `ov::float16` is declared
outside this file; the spec calls it the 16-bit floating-point representation
(IEEE 754 binary16: 1 sign bit, 5 exponent bits, 10 fraction bits). This is the
magnitude of a finite pattern in units of `2^-24`, the smallest subnormal. -/
def f16_magnitude (b : Nat) : Nat :=
  if b / 1024 % 32 = 0 then b % 1024 else (1024 + b % 1024) * 2 ^ (b / 1024 % 32 - 1)

/-- Modelled from the spec: the value of a half-float pattern in units of
`2^-24`; `none` for the infinities and the NaNs (exponent field 31). -/
def f16_units (b : Nat) : Option Int :=
  if b / 1024 % 32 = 31 then none
  else if b / 32768 % 2 = 1 then some (-(f16_magnitude b : Int))
  else some (f16_magnitude b : Int)

/-- Modelled from the spec: the number of halvings that bring `a` below
`2048 = 2^11` (at most `fuel`); for `a ≥ 2048` this is `⌊log₂ a⌋ - 10`. -/
def f16_shift : Nat → Nat → Nat
  | 0, _ => 0
  | fuel + 1, a => if a < 2048 then 0 else f16_shift fuel (a / 2) + 1

/-- Modelled from the spec: conversion to half precision, round to nearest,
ties to even, of the magnitude `a * 2^-24`: the 15 low bits of the result,
`0x7C00` (infinity) on overflow. An exponent shift of 30 or more already
overflows, so the 64 steps given to `f16_shift` cover every `a`. -/
def f16_round (a : Nat) : Nat :=
  if a < 2048 then a
  else
    let e := f16_shift 64 a
    let q := a / 2 ^ e
    let r := a % 2 ^ e
    let q' := if 2 ^ e < 2 * r ∨ (2 * r = 2 ^ e ∧ q % 2 = 1) then q + 1 else q
    let bits := (e + 1) * 1024 + (q' - 1024)
    if 0x7C00 ≤ bits then 0x7C00 else bits

/-- Modelled from the spec: the bit pattern of
`ov::float16(k * static_cast<float>(x))` for the half-float `x` of pattern `b`
and an integer factor `k` with `|k| < 2^13` (the code uses `-8` and `-128`): the
widening to `float` and the product are then exact, and the only rounding is
the conversion back to half precision. The sign is the product of the signs,
an infinity stays infinite, a NaN stays a NaN (its pattern with the quiet bit
set). -/
def f16_scale_ieee (k : Int) (b : Nat) : Nat :=
  let sign := (b / 32768 % 2 + (if k < 0 then 1 else 0)) % 2
  if b / 1024 % 32 = 31 then
    if b % 1024 = 0 then (if k = 0 then 0xFE00 else sign * 32768 + 0x7C00)
    else if b / 512 % 2 = 1 then b else b + 512
  else sign * 32768 + f16_round (k.natAbs * f16_magnitude b)

/-- A host whose half-float product is the IEEE one; fresh storage holds `0`. -/
def ieee_host : Host := ⟨f16_scale_ieee, fun _ _ => 0⟩

/-- One block of the 18-byte format whose scale is `0x7BFF` (65504, the largest
finite half-float) and whose 16 code bytes are zero. -/
def sample_q4_0_large_scale : gguf_tensor :=
  ⟨"blk.0.weight".toList, GGUF_TYPE_Q4_0, [32], [0xFF, 0x7B] ++ List.replicate 16 0⟩

/-- The dequantization identity of a Q4_0 block with scale pattern `s` and bias
pattern `b`, in exact arithmetic on the half-float values: both are finite,
the bias is `-8` times the scale, and `c * scale + bias = (c - 8) * scale` for
every code `c` in `0..15`. -/
def bias_is_minus_8_scale (s b : Nat) : Prop :=
  ∃ sv bv : Int, f16_units s = some sv ∧ f16_units b = some bv ∧ bv = -8 * sv ∧
    ∀ c : Int, 0 ≤ c → c ≤ 15 → c * sv + bv = (c - 8) * sv

/-! ## Memory and loop lemmas -/

theorem load_of_lt {buf : Buffer} {i : Nat} (h : i < buf.length) :
    load buf i = some (buf.getD i 0) := by
  simp [load, List.getD_eq_getElem?_getD, List.getElem?_eq_getElem h]

theorem store_of_lt {buf : Buffer} {i : Nat} (v : Nat) (h : i < buf.length) :
    store buf i v = some (buf.set i v) := by
  simp [store, h]

theorem getD_of_getElem? {buf : Buffer} {i v : Nat} (h : buf[i]? = some v) :
    buf.getD i 0 = v := by
  simp [List.getD_eq_getElem?_getD, h]

theorem lt_of_getElem? {buf : Buffer} {i v : Nat} (h : buf[i]? = some v) :
    i < buf.length := by
  by_contra hc
  rw [List.getElem?_eq_none (by omega)] at h
  cases h

theorem getElem?_of_lt {buf : Buffer} {i : Nat} (h : i < buf.length) :
    buf[i]? = some (buf.getD i 0) := by
  simp [List.getD_eq_getElem?_getD, List.getElem?_eq_getElem h]

/-- Total-correctness rule for a counting loop: an invariant that holds at
the start and is carried by every iteration, which never faults under it,
holds at the end, and the loop returns. -/
theorem forLoopFrom_inv {σ : Type} (body : Nat → σ → Option σ) (I : Nat → σ → Prop) :
    ∀ (count j : Nat) (s : σ), I j s →
      (∀ k t, j ≤ k → k < j + count → I k t → ∃ t', body k t = some t' ∧ I (k + 1) t') →
      ∃ s', forLoopFrom body count j s = some s' ∧ I (j + count) s' := by
  intro count
  induction count with
  | zero => intro j s h _; exact ⟨s, rfl, h⟩
  | succ c ih =>
    intro j s h hstep
    obtain ⟨t, ht, hI⟩ := hstep j s (Nat.le_refl _) (by omega) h
    obtain ⟨s', hs', hI'⟩ := ih (j + 1) t hI
      (fun k u hk hk' hu => hstep k u (by omega) (by omega) hu)
    refine ⟨s', ?_, ?_⟩
    · simp [forLoopFrom, ht, hs']
    · have : j + (c + 1) = j + 1 + c := by omega
      rw [this]; exact hI'

theorem forLoop_inv {σ : Type} (body : Nat → σ → Option σ) (I : Nat → σ → Prop)
    (n : Nat) (s : σ) (h0 : I 0 s)
    (hstep : ∀ k t, k < n → I k t → ∃ t', body k t = some t' ∧ I (k + 1) t') :
    ∃ s', forLoop n body s = some s' ∧ I n s' := by
  have := forLoopFrom_inv body I n 0 s h0
    (fun k t _ hk ht => hstep k t (by omega) ht)
  simpa [forLoop] using this

theorem fill_n_spec (dst : Buffer) (off n v : Nat) (h : off + n ≤ dst.length) :
    ∃ out, fill_n dst off n v = some out ∧ out.length = dst.length ∧
      ∀ i, out[i]? = if off ≤ i ∧ i < off + n then some v else dst[i]? := by
  have := forLoop_inv (fun j d => store d (off + j) v)
    (fun j d => d.length = dst.length ∧
      ∀ i, d[i]? = if off ≤ i ∧ i < off + j then some v else dst[i]?)
    n dst ⟨rfl, fun i => by
      have : ¬ (off ≤ i ∧ i < off) := by omega
      simp [this]⟩
    (fun k t hk ht => by
      obtain ⟨hlen, hval⟩ := ht
      refine ⟨t.set (off + k) v, store_of_lt v (by omega), by simp [hlen], fun i => ?_⟩
      rw [List.getElem?_set]
      by_cases hi : off + k = i
      · subst hi
        have h1 : off + k < t.length := by omega
        have h2 : off ≤ off + k ∧ off + k < off + (k + 1) := by omega
        simp [h1, h2]
      · rw [if_neg hi, hval i]
        by_cases hc : off ≤ i ∧ i < off + k
        · have : off ≤ i ∧ i < off + (k + 1) := by omega
          simp [hc, this]
        · have : ¬ (off ≤ i ∧ i < off + (k + 1)) := by omega
          simp [hc, this])
  simpa [fill_n] using this

theorem orAcc_of_miss (data : Buffer) (src pos : Nat → Nat) (g : Nat → Nat → Nat) :
    ∀ (count j i v : Nat), (∀ k, j ≤ k → k < j + count → pos k ≠ i) →
      orAcc data src pos g count j i v = v := by
  intro count
  induction count with
  | zero => intro j i v _; rfl
  | succ c ih =>
    intro j i v h
    have h0 : pos j ≠ i := h j (Nat.le_refl _) (by omega)
    simp only [orAcc, if_neg h0]
    exact ih (j + 1) i v (fun k hk hk' => h k (by omega) (by omega))

theorem orInto_loop (data : Buffer) (src pos : Nat → Nat) (g : Nat → Nat → Nat) :
    ∀ (count j : Nat) (dst : Buffer),
      (∀ k, j ≤ k → k < j + count → src k < data.length ∧ pos k < dst.length) →
      ∃ out, forLoopFrom (orInto data src pos g) count j dst = some out ∧
        out.length = dst.length ∧
        ∀ i, out[i]? = (dst[i]?).map (orAcc data src pos g count j i) := by
  intro count
  induction count with
  | zero =>
    intro j dst _
    refine ⟨dst, rfl, rfl, fun i => ?_⟩
    cases dst[i]? <;> rfl
  | succ c ih =>
    intro j dst h
    obtain ⟨hs, hp⟩ := h j (Nat.le_refl _) (by omega)
    have hbody : orInto data src pos g j dst
        = some (dst.set (pos j) (dst.getD (pos j) 0 ||| g j (data.getD (src j) 0))) := by
      simp [orInto, load_of_lt hs, load_of_lt hp, store_of_lt _ hp]
    obtain ⟨out, hout, hlen, hval⟩ := ih (j + 1)
      (dst.set (pos j) (dst.getD (pos j) 0 ||| g j (data.getD (src j) 0)))
      (fun k hk hk' => by
        have := h k (by omega) (by omega)
        simpa using this)
    refine ⟨out, ?_, by simpa using hlen, fun i => ?_⟩
    · show (orInto data src pos g j dst).bind _ = _
      rw [hbody]; exact hout
    · rw [hval i, List.getElem?_set]
      by_cases hi : pos j = i
      · subst hi
        simp only [orAcc, if_true, if_pos hp, getElem?_of_lt hp, Option.map_some']
      · simp only [if_neg hi, orAcc]

/-! ## The nibble unpacker -/

theorem unpack_32_4_eq (data : Buffer) (dp : Nat) (dst : Buffer) (wp : Nat) :
    unpack_32_4 data dp dst wp =
      (fill_n dst wp 16 0).bind fun d0 =>
        (forLoopFrom (orInto data (fun j => dp + (j + 2)) (fun j => wp + j / 2)
          (fun j b => if j % 2 != 0 then ((b &&& 0x0F) <<< 4) % 256 else b &&& 0x0F))
          16 0 d0).bind fun d1 =>
        forLoopFrom (orInto data (fun j => dp + (j + 2)) (fun j => wp + (8 + j / 2))
          (fun j b => if j % 2 != 0 then ((b >>> 4) <<< 4) % 256 else b >>> 4))
          16 0 d1 := rfl

/-- Behaviour of one call of `unpack_32_4` on a window of a larger buffer:
it returns, keeps the length, leaves every byte outside the 16-byte window
untouched and fills the window with the packed low and high nibbles. -/
theorem unpack_32_4_spec (data : Buffer) (dp : Nat) (dst : Buffer) (wp : Nat)
    (hd : dp + 18 ≤ data.length) (hw : wp + 16 ≤ dst.length) :
    ∃ out, unpack_32_4 data dp dst wp = some out ∧ out.length = dst.length ∧
      (∀ i, i < wp ∨ wp + 16 ≤ i → out[i]? = dst[i]?) ∧
      (∀ k, k < 8 → out[wp + k]? =
        some (pack_lo (data.getD (dp + (2 + 2 * k)) 0)
          (data.getD (dp + (2 + 2 * k + 1)) 0))) ∧
      (∀ k, k < 8 → out[wp + (8 + k)]? =
        some (pack_hi (data.getD (dp + (2 + 2 * k)) 0)
          (data.getD (dp + (2 + 2 * k + 1)) 0))) := by
  obtain ⟨d0, h0, hl0, hv0⟩ := fill_n_spec dst wp 16 0 hw
  obtain ⟨d1, h1, hl1, hv1⟩ := orInto_loop data (fun j => dp + (j + 2)) (fun j => wp + j / 2)
    (fun j b => if j % 2 != 0 then ((b &&& 0x0F) <<< 4) % 256 else b &&& 0x0F) 16 0 d0
    (fun k _ hk => ⟨by simp only; omega, by simp only; omega⟩)
  obtain ⟨d2, h2, hl2, hv2⟩ := orInto_loop data (fun j => dp + (j + 2))
    (fun j => wp + (8 + j / 2))
    (fun j b => if j % 2 != 0 then ((b >>> 4) <<< 4) % 256 else b >>> 4) 16 0 d1
    (fun k _ hk => ⟨by simp only; omega, by simp only; omega⟩)
  refine ⟨d2, ?_, by omega, ?_, ?_, ?_⟩
  · rw [unpack_32_4_eq, h0, Option.some_bind, h1, Option.some_bind, h2]
  · intro i hi
    rw [hv2 i, hv1 i, hv0 i, if_neg (by omega)]
    rw [Option.map_map]
    cases hdi : dst[i]? with
    | none => rfl
    | some v =>
      simp only [Option.map_some', Function.comp]
      rw [orAcc_of_miss _ _ _ _ 16 0 i v (fun k _ hk => by omega)]
      rw [orAcc_of_miss _ _ _ _ 16 0 i v (fun k _ hk => by omega)]
  · intro k hk
    rw [hv2, hv1, hv0, if_pos (by omega)]
    simp only [Option.map_some']
    rw [orAcc_of_miss _ _ _ _ 16 0 (wp + k) _ (fun j _ hj => by omega)]
    interval_cases k <;> simp [orAcc, pack_lo]
  · intro k hk
    rw [hv2, hv1, hv0, if_pos (by omega)]
    simp only [Option.map_some']
    rw [orAcc_of_miss _ _ _ _ 16 0 (wp + (8 + k)) 0 (fun j _ hj => by omega)]
    interval_cases k <;> simp [orAcc, pack_hi]

set_option maxRecDepth 100000 in
theorem nibble_facts : ∀ x < 16, ∀ y < 16,
    (x ||| ((y <<< 4) % 256)) = (x ||| (y <<< 4)) % 256 ∧
    ((x ||| ((y <<< 4) % 256)) >>> (4 * 0)) &&& 0x0F = x ∧
    ((x ||| ((y <<< 4) % 256)) >>> (4 * 1)) &&& 0x0F = y := by decide

theorem and_0F_lt (a : Nat) : a &&& 0x0F < 16 := by
  have := @Nat.and_le_right a 15
  omega

theorem shiftRight_4_lt {a : Nat} (h : a < 256) : a >>> 4 < 16 := by
  rw [Nat.shiftRight_eq_div_pow]; omega

theorem getD_lt_of_bytes {data : Buffer} (hbytes : ∀ b ∈ data, b < 256) (i : Nat) :
    data.getD i 0 < 256 := by
  by_cases hi : i < data.length
  · rw [List.getD_eq_getElem _ _ hi]; exact hbytes _ (List.getElem_mem _)
  · rw [List.getD_eq_getElem?_getD, List.getElem?_eq_none (by omega)]; simp

theorem getD_drop (buf : Buffer) (off i : Nat) :
    (buf.drop off).getD i 0 = buf.getD (off + i) 0 := by
  simp [List.getD_eq_getElem?_getD, List.getElem?_drop]

/-- Two runs of `unpack_32_4` on destinations that agree outside the window
give the same buffer. -/
theorem unpack_32_4_dst_irrelevant (data : Buffer) (dp : Nat) (dst dst' : Buffer) (wp : Nat)
    (hd : dp + 18 ≤ data.length) (hw : wp + 16 ≤ dst.length)
    (hlen : dst'.length = dst.length)
    (hout : ∀ i, i < wp ∨ wp + 16 ≤ i → dst'[i]? = dst[i]?) :
    unpack_32_4 data dp dst' wp = unpack_32_4 data dp dst wp := by
  obtain ⟨o1, h1, _, hf1, hlo1, hhi1⟩ := unpack_32_4_spec data dp dst wp hd hw
  obtain ⟨o2, h2, _, hf2, hlo2, hhi2⟩ := unpack_32_4_spec data dp dst' wp hd (by omega)
  rw [h1, h2]
  congr 1
  apply List.ext_getElem?
  intro i
  by_cases hi : i < wp ∨ wp + 16 ≤ i
  · rw [hf1 i hi, hf2 i hi, hout i hi]
  · by_cases hk : i < wp + 8
    · obtain ⟨k, rfl⟩ : ∃ k, i = wp + k := ⟨i - wp, by omega⟩
      rw [hlo1 k (by omega), hlo2 k (by omega)]
    · obtain ⟨k, rfl⟩ : ∃ k, i = wp + (8 + k) := ⟨i - wp - 8, by omega⟩
      rw [hhi1 k (by omega), hhi2 k (by omega)]

/-- The nibble view of a window filled as `unpack_32_4` fills it: position `p`
holds the low nibble of source byte `p` for `p < 16` and the high nibble of
source byte `p - 16` for `16 ≤ p < 32`. -/
theorem code_at_of_cells (data : Buffer) (dp : Nat) (out : Buffer) (wp : Nat)
    (hb : ∀ i, data.getD i 0 < 256)
    (hlo : ∀ k, k < 8 → out[wp + k]? =
      some (pack_lo (data.getD (dp + (2 + 2 * k)) 0) (data.getD (dp + (2 + 2 * k + 1)) 0)))
    (hhi : ∀ k, k < 8 → out[wp + (8 + k)]? =
      some (pack_hi (data.getD (dp + (2 + 2 * k)) 0) (data.getD (dp + (2 + 2 * k + 1)) 0))) :
    ∀ p, p < 32 → code_at (out.drop wp) p =
      if p < 16 then data.getD (dp + (2 + p)) 0 &&& 0x0F
      else data.getD (dp + (2 + (p - 16))) 0 >>> 4 := by
  intro p hp
  have hmod : p % 2 = 0 ∨ p % 2 = 1 := Nat.mod_two_eq_zero_or_one p
  unfold code_at
  rw [getD_drop]
  by_cases h16 : p < 16
  · rw [if_pos h16, getD_of_getElem? (hlo (p / 2) (by omega))]
    have f := nibble_facts _ (and_0F_lt (data.getD (dp + (2 + 2 * (p / 2))) 0)) _
      (and_0F_lt (data.getD (dp + (2 + 2 * (p / 2) + 1)) 0))
    rcases hmod with h | h
    · have e : 2 + 2 * (p / 2) = 2 + p := by omega
      rw [h]; unfold pack_lo; rw [f.2.1, e]
    · have e : 2 + 2 * (p / 2) + 1 = 2 + p := by omega
      rw [h]; unfold pack_lo; rw [f.2.2, e]
  · rw [if_neg h16]
    have hq : p / 2 = 8 + (p / 2 - 8) := by omega
    rw [hq, getD_of_getElem? (hhi (p / 2 - 8) (by omega))]
    have f := nibble_facts _
      (shiftRight_4_lt (hb (dp + (2 + 2 * (p / 2 - 8))))) _
      (shiftRight_4_lt (hb (dp + (2 + 2 * (p / 2 - 8) + 1))))
    rcases hmod with h | h
    · have e : 2 + 2 * (p / 2 - 8) = 2 + (p - 16) := by omega
      rw [h]; unfold pack_hi; rw [f.2.1, e]
    · have e : 2 + 2 * (p / 2 - 8) + 1 = 2 + (p - 16) := by omega
      rw [h]; unfold pack_hi; rw [f.2.2, e]

/-- C1. `unpack_32_4` computes the documented nibble split. For a source
pointer with at least 18 readable bytes and a destination pointer with at
least 16 writable bytes the call returns and, for every `k` in `0..7`,
`dst[k] = (data[2+2k] AND 0x0F) OR ((data[2+2k+1] AND 0x0F) << 4)` and
`dst[8+k] = (data[2+2k] >> 4) OR ((data[2+2k+1] >> 4) << 4)`, modulo 256;
the 4-bit code at logical position `p` of the output is the low nibble of
source byte `p` for `p < 16` and the high nibble of source byte `p - 16` for
`16 ≤ p < 32`; and the result does not depend on the previous content of the
16 destination bytes. -/
theorem unpack_32_4_nibble_split (data : Buffer) (dp : Nat) (dst : Buffer) (wp : Nat)
    (hdata : dp + 18 ≤ data.length) (hbytes : ∀ b ∈ data, b < 256)
    (hdst : wp + 16 ≤ dst.length) :
    ∃ out, unpack_32_4 data dp dst wp = some out ∧ out.length = dst.length ∧
      (∀ k, k < 8 →
        out[wp + k]? = some (((data.getD (dp + (2 + 2 * k)) 0 &&& 0x0F) |||
          ((data.getD (dp + (2 + 2 * k + 1)) 0 &&& 0x0F) <<< 4)) % 256) ∧
        out[wp + (8 + k)]? = some (((data.getD (dp + (2 + 2 * k)) 0 >>> 4) |||
          ((data.getD (dp + (2 + 2 * k + 1)) 0 >>> 4) <<< 4)) % 256)) ∧
      (∀ p, p < 32 → code_at (out.drop wp) p =
        if p < 16 then data.getD (dp + (2 + p)) 0 &&& 0x0F
        else data.getD (dp + (2 + (p - 16))) 0 >>> 4) ∧
      (∀ dst' : Buffer, dst'.length = dst.length →
        (∀ i, i < wp ∨ wp + 16 ≤ i → dst'[i]? = dst[i]?) →
        unpack_32_4 data dp dst' wp = some out) := by
  obtain ⟨out, hout, hlen, _, hlo, hhi⟩ := unpack_32_4_spec data dp dst wp hdata hdst
  have hb := getD_lt_of_bytes hbytes
  refine ⟨out, hout, hlen, ?_, ?_, ?_⟩
  · intro k hk
    refine ⟨?_, ?_⟩
    · rw [hlo k hk]
      exact congrArg some (nibble_facts _ (and_0F_lt _) _ (and_0F_lt _)).1
    · rw [hhi k hk]
      exact congrArg some
        (nibble_facts _ (shiftRight_4_lt (hb _)) _ (shiftRight_4_lt (hb _))).1
  · exact code_at_of_cells data dp out wp hb hlo hhi
  · intro dst' hl hagree
    rw [unpack_32_4_dst_irrelevant data dp dst dst' wp hdata hdst hl hagree, hout]

/-- The contract of C1 on a block whose code bytes start `0x12, 0x34` and a
destination filled with `0xFF`: the call returns, `dst[0] = 0x42` and
`dst[8] = 0x31`. -/
theorem unpack_32_4_nibble_split_witness :
    ∃ out, unpack_32_4 [0, 0, 0x12, 0x34, 0x56, 0x78, 0x9A, 0xBC, 0xDE, 0xF0, 1, 2, 3, 4,
        5, 6, 7, 8] 0 (List.replicate 16 0xFF) 0 = some out ∧
      out[0]? = some 0x42 ∧ out[8]? = some 0x31 := by
  obtain ⟨out, h, _, hk, _⟩ := unpack_32_4_nibble_split
    [0, 0, 0x12, 0x34, 0x56, 0x78, 0x9A, 0xBC, 0xDE, 0xF0, 1, 2, 3, 4, 5, 6, 7, 8] 0
    (List.replicate 16 0xFF) 0 (by decide) (by decide) (by decide)
  exact ⟨out, h, (hk 0 (by decide)).1, (hk 0 (by decide)).2⟩

/-! ## The 4-bit extractors -/

theorem read_u16_of_le {data : Buffer} {off k : Nat} (h : off + 2 * k + 2 ≤ data.length) :
    read_u16 data off k = some (u16_at data (off + 2 * k)) := by
  have h0 : off + 2 * k < data.length := by omega
  have h1 : off + 2 * k + 1 < data.length := by omega
  show (load data (off + 2 * k)).bind _ = _
  rw [load_of_lt h0, Option.some_bind]
  show (load data (off + 2 * k + 1)).bind _ = _
  rw [load_of_lt h1, Option.some_bind]
  rfl

theorem read_u16_zero {data : Buffer} {off : Nat} (h : off + 2 ≤ data.length) :
    read_u16 data off 0 = some (u16_at data off) :=
  read_u16_of_le (k := 0) (by omega)

/-- The loop of a 4-bit extractor returns and leaves every output buffer
fully described: the first `16 n` weight bytes, the first `n` scales and the
first `n` biases are set, everything behind them is untouched. -/
theorem q4_loop_spec (data : Buffer) (bs : Nat) (mkBias : Nat → Buffer → Nat → Option Nat)
    (bval : Nat → Nat) (n : Nat) (W S B : Buffer)
    (hdata : ∀ i, i < n → bs * i + 18 ≤ data.length)
    (hbias : ∀ i sc, i < n → sc[i]? = some (u16_at data (bs * i)) →
      mkBias (bs * i) sc i = some (bval i))
    (hW : 16 * n ≤ W.length) (hS : n ≤ S.length) (hB : n ≤ B.length) :
    ∃ st, forLoop n (q4_step data bs mkBias) ⟨0, 0, W, S, B⟩ = some st ∧
      st.wbuf.length = W.length ∧ st.scales.length = S.length ∧
      st.biases.length = B.length ∧
      (∀ idx, st.wbuf[idx]? =
        if idx < 16 * n then some (q4_weight_byte data bs idx) else W[idx]?) ∧
      (∀ idx, st.scales[idx]? =
        if idx < n then some (u16_at data (bs * idx)) else S[idx]?) ∧
      (∀ idx, st.biases[idx]? = if idx < n then some (bval idx) else B[idx]?) := by
  have := forLoop_inv (q4_step data bs mkBias)
    (fun i st => st.data = bs * i ∧ st.weights = 16 * i ∧
      st.wbuf.length = W.length ∧ st.scales.length = S.length ∧
      st.biases.length = B.length ∧
      (∀ idx, st.wbuf[idx]? =
        if idx < 16 * i then some (q4_weight_byte data bs idx) else W[idx]?) ∧
      (∀ idx, st.scales[idx]? =
        if idx < i then some (u16_at data (bs * idx)) else S[idx]?) ∧
      (∀ idx, st.biases[idx]? = if idx < i then some (bval idx) else B[idx]?))
    n ⟨0, 0, W, S, B⟩
    ⟨by simp, by simp, rfl, rfl, rfl, fun idx => by simp, fun idx => by simp,
      fun idx => by simp⟩
    (fun i st hi hI => by
      obtain ⟨hdp, hwp, hlw, hls, hlb, hw, hs, hb⟩ := hI
      have hd := hdata i hi
      have hsc : (st.scales.set i (u16_at data (bs * i)))[i]?
          = some (u16_at data (bs * i)) := by
        rw [List.getElem?_set, if_pos rfl, if_pos (by omega)]
      obtain ⟨out, hout, hlo, hframe, hlo8, hhi8⟩ :=
        unpack_32_4_spec data (bs * i) st.wbuf (16 * i) hd (by omega)
      refine ⟨⟨bs * i + bs, 16 * i + 16, out, st.scales.set i (u16_at data (bs * i)),
        st.biases.set i (bval i)⟩, ?_, ?_⟩
      · unfold q4_step
        rw [hdp, hwp, read_u16_zero (by omega), Option.some_bind,
          store_of_lt _ (by omega), Option.some_bind, hbias i _ hi hsc, Option.some_bind,
          store_of_lt _ (by omega), Option.some_bind, hout, Option.some_bind]
      · refine ⟨by simp [Nat.mul_succ], by simp [Nat.mul_succ], by simp [hlo, hlw],
          by simp [hls], by simp [hlb], fun idx => ?_, fun idx => ?_, fun idx => ?_⟩
        · show out[idx]? = _
          by_cases h1 : idx < 16 * i ∨ 16 * i + 16 ≤ idx
          · rw [hframe idx h1, hw idx]
            rcases h1 with h1 | h1
            · rw [if_pos h1, if_pos (by omega)]
            · rw [if_neg (by omega), if_neg (by omega)]
          · rw [if_pos (by omega)]
            have hq : idx / 16 = i := by omega
            by_cases h8 : idx < 16 * i + 8
            · obtain ⟨k, rfl⟩ : ∃ k, idx = 16 * i + k := ⟨idx - 16 * i, by omega⟩
              have hr : (16 * i + k) % 16 = k := by omega
              rw [hlo8 k (by omega)]
              unfold q4_weight_byte
              rw [hq, hr, if_pos (by omega)]
            · obtain ⟨k, rfl⟩ : ∃ k, idx = 16 * i + (8 + k) := ⟨idx - 16 * i - 8, by omega⟩
              have hr : (16 * i + (8 + k)) % 16 = 8 + k := by omega
              have hr' : 8 + k - 8 = k := by omega
              rw [hhi8 k (by omega)]
              unfold q4_weight_byte
              rw [hq, hr, if_neg (by omega), hr']
        · show (st.scales.set i _)[idx]? = _
          rw [List.getElem?_set]
          by_cases h1 : i = idx
          · subst h1
            rw [if_pos rfl, if_pos (by omega), if_pos (by omega)]
          · rw [if_neg h1, hs idx]
            by_cases h2 : idx < i
            · rw [if_pos h2, if_pos (by omega)]
            · rw [if_neg h2, if_neg (by omega)]
        · show (st.biases.set i _)[idx]? = _
          rw [List.getElem?_set]
          by_cases h1 : i = idx
          · subst h1
            rw [if_pos rfl, if_pos (by omega), if_pos (by omega)]
          · rw [if_neg h1, hb idx]
            by_cases h2 : idx < i
            · rw [if_pos h2, if_pos (by omega)]
            · rw [if_neg h2, if_neg (by omega)])
  obtain ⟨st, hst, _, _, h⟩ := this
  exact ⟨st, hst, h⟩

theorem extract_q4_0_data_eq (h : Host) (tensor : gguf_tensor) (W S B : Tensor) :
    extract_q4_0_data h tensor W S B =
      (forLoop S.get_size (q4_step tensor.weights_data 18
        (fun _ sc i => (load sc i).map (h.f16_scale (-8))))
        ⟨0, 0, W.data, S.data, B.data⟩).map
        (fun st => ({ W with data := st.wbuf }, { S with data := st.scales },
          { B with data := st.biases })) := by
  have hbody : (fun i (st : ExtractState) => do
      let s ← read_u16 tensor.weights_data st.data 0
      let scales ← store st.scales i s
      let si ← load scales i
      let biases ← store st.biases i (h.f16_scale (-8) si)
      let wbuf ← unpack_32_4 tensor.weights_data st.data st.wbuf st.weights
      some (⟨st.data + 18, st.weights + 16, wbuf, scales, biases⟩ : ExtractState))
      = q4_step tensor.weights_data 18 (fun _ sc i => (load sc i).map (h.f16_scale (-8))) := by
    funext i st
    unfold q4_step
    refine congrArg (Option.bind _) (funext fun s => ?_)
    refine congrArg (Option.bind _) (funext fun sc => ?_)
    beta_reduce
    cases load sc i <;> rfl
  unfold extract_q4_0_data
  dsimp only
  rw [hbody]
  cases forLoop S.get_size (q4_step tensor.weights_data 18
    (fun _ sc i => (load sc i).map (h.f16_scale (-8)))) ⟨0, 0, W.data, S.data, B.data⟩ <;> rfl

theorem extract_q4_1_data_eq (tensor : gguf_tensor) (W S B : Tensor) :
    extract_q4_1_data tensor W S B =
      (forLoop S.get_size (q4_step tensor.weights_data 20
        (fun dp _ _ => read_u16 tensor.weights_data dp 1))
        ⟨0, 0, W.data, S.data, B.data⟩).map
        (fun st => ({ W with data := st.wbuf }, { S with data := st.scales },
          { B with data := st.biases })) := by
  unfold extract_q4_1_data
  dsimp only
  show (forLoop S.get_size (q4_step tensor.weights_data 20
    (fun dp _ _ => read_u16 tensor.weights_data dp 1))
    ⟨0, 0, W.data, S.data, B.data⟩).bind _ = _
  cases forLoop S.get_size (q4_step tensor.weights_data 20
    (fun dp _ _ => read_u16 tensor.weights_data dp 1)) ⟨0, 0, W.data, S.data, B.data⟩ <;> rfl

/-- Full description of a run of `extract_q4_0_data` on buffers that are
large enough: it returns, and each output buffer is given cell by cell. -/
theorem extract_q4_0_data_spec (h : Host) (tensor : gguf_tensor) (W S B : Tensor)
    (hdata : 18 * S.get_size ≤ tensor.weights_data.length)
    (hW : 16 * S.get_size ≤ W.data.length) (hS : S.get_size ≤ S.data.length)
    (hB : S.get_size ≤ B.data.length) :
    ∃ w s b, extract_q4_0_data h tensor W S B
        = some ({ W with data := w }, { S with data := s }, { B with data := b }) ∧
      w.length = W.data.length ∧ s.length = S.data.length ∧ b.length = B.data.length ∧
      (∀ idx, w[idx]? = if idx < 16 * S.get_size
        then some (q4_weight_byte tensor.weights_data 18 idx) else W.data[idx]?) ∧
      (∀ idx, s[idx]? = if idx < S.get_size
        then some (u16_at tensor.weights_data (18 * idx)) else S.data[idx]?) ∧
      (∀ idx, b[idx]? = if idx < S.get_size
        then some (h.f16_scale (-8) (u16_at tensor.weights_data (18 * idx)))
        else B.data[idx]?) := by
  obtain ⟨st, hst, h1, h2, h3, h4, h5, h6⟩ := q4_loop_spec tensor.weights_data 18
    (fun _ sc i => (load sc i).map (h.f16_scale (-8)))
    (fun i => h.f16_scale (-8) (u16_at tensor.weights_data (18 * i)))
    S.get_size W.data S.data B.data (fun i hi => by omega)
    (fun i sc _ hsc => by
      simp only [load_of_lt (lt_of_getElem? hsc), getD_of_getElem? hsc, Option.map_some'])
    hW hS hB
  refine ⟨st.wbuf, st.scales, st.biases, ?_, h1, h2, h3, h4, h5, h6⟩
  rw [extract_q4_0_data_eq, hst]
  rfl

/-- Full description of a run of `extract_q4_1_data` on buffers that are
large enough: it returns, and each output buffer is given cell by cell. -/
theorem extract_q4_1_data_spec (tensor : gguf_tensor) (W S B : Tensor)
    (hdata : 20 * S.get_size ≤ tensor.weights_data.length)
    (hW : 16 * S.get_size ≤ W.data.length) (hS : S.get_size ≤ S.data.length)
    (hB : S.get_size ≤ B.data.length) :
    ∃ w s b, extract_q4_1_data tensor W S B
        = some ({ W with data := w }, { S with data := s }, { B with data := b }) ∧
      w.length = W.data.length ∧ s.length = S.data.length ∧ b.length = B.data.length ∧
      (∀ idx, w[idx]? = if idx < 16 * S.get_size
        then some (q4_weight_byte tensor.weights_data 20 idx) else W.data[idx]?) ∧
      (∀ idx, s[idx]? = if idx < S.get_size
        then some (u16_at tensor.weights_data (20 * idx)) else S.data[idx]?) ∧
      (∀ idx, b[idx]? = if idx < S.get_size
        then some (u16_at tensor.weights_data (20 * idx + 2)) else B.data[idx]?) := by
  obtain ⟨st, hst, h1, h2, h3, h4, h5, h6⟩ := q4_loop_spec tensor.weights_data 20
    (fun dp _ _ => read_u16 tensor.weights_data dp 1)
    (fun i => u16_at tensor.weights_data (20 * i + 2))
    S.get_size W.data S.data B.data (fun i hi => by omega)
    (fun i sc hi _ => by
      have := @read_u16_of_le tensor.weights_data (20 * i) 1 (by omega)
      simpa using this)
    hW hS hB
  refine ⟨st.wbuf, st.scales, st.biases, ?_, h1, h2, h3, h4, h5, h6⟩
  rw [extract_q4_1_data_eq, hst]
  rfl

theorem block_getD (s0 s1 : Nat) (data : Buffer) (off j : Nat) (hj : j < 16) :
    (s0 :: s1 :: (data.drop (off + 2)).take 16).getD (2 + j) 0
      = data.getD (off + (2 + j)) 0 := by
  have e : 2 + j = (j + 1) + 1 := by omega
  rw [e, List.getD_cons_succ, List.getD_cons_succ, List.getD_eq_getElem?_getD,
    List.getD_eq_getElem?_getD, List.getElem?_take_of_lt hj, List.getElem?_drop]
  congr 2; omega

/-- A 16-byte window of weights described by `q4_weight_byte` is what
`unpack_32_4` returns on a block made of two arbitrary leading bytes and the
16 source bytes at block offsets `2 ..< 18`. -/
theorem q4_window_eq_unpack (data : Buffer) (bs n : Nat) (w W : Buffer)
    (hw : ∀ idx, w[idx]? = if idx < 16 * n then some (q4_weight_byte data bs idx) else W[idx]?)
    (i : Nat) (hi : i < n) (hlen : bs * i + 18 ≤ data.length)
    (s0 s1 : Nat) (dst : Buffer) (hdst : dst.length = 16) :
    unpack_32_4 (s0 :: s1 :: (data.drop (bs * i + 2)).take 16) 0 dst 0
      = some ((w.drop (16 * i)).take 16) := by
  have hblk : 0 + 18 ≤ (s0 :: s1 :: (data.drop (bs * i + 2)).take 16).length := by
    simp only [List.length_cons, List.length_take, List.length_drop]
    have : 16 ≤ data.length - (bs * i + 2) := by omega
    rw [min_eq_left this]
  obtain ⟨out, hout, hl, _, hlo, hhi⟩ := unpack_32_4_spec _ 0 dst 0 hblk (by omega)
  rw [hout]
  congr 1
  apply List.ext_getElem?
  intro idx
  rw [List.getElem?_take, List.getElem?_drop]
  by_cases h16 : idx < 16
  · rw [if_pos h16, hw, if_pos (by omega)]
    have hq : (16 * i + idx) / 16 = i := by omega
    have hr : (16 * i + idx) % 16 = idx := by omega
    unfold q4_weight_byte
    rw [hq, hr]
    by_cases h8 : idx < 8
    · have h := hlo idx h8
      simp only [Nat.zero_add] at h
      rw [h, if_pos h8, block_getD _ _ _ _ _ (by omega), Nat.add_assoc 2,
        block_getD _ _ _ _ _ (by omega)]
    · obtain ⟨k, rfl⟩ : ∃ k, idx = 8 + k := ⟨idx - 8, by omega⟩
      have h := hhi k (by omega)
      have hk : 8 + k - 8 = k := by omega
      simp only [Nat.zero_add] at h
      rw [h, if_neg h8, hk, block_getD _ _ _ _ _ (by omega), Nat.add_assoc 2,
        block_getD _ _ _ _ _ (by omega)]
  · rw [if_neg h16]
    exact List.getElem?_eq_none (by omega)

/-- C2. `extract_q4_0_data` decodes every block independently and in order.
On an input of at least `n` blocks of 18 bytes (`n` the number of elements of
the scales tensor) and output tensors with room for `n` blocks the call
returns, and for every block `i < n` the 16 weight bytes at offsets
`[16 i, 16 i + 16)` are exactly what `unpack_32_4` yields on the 16 input bytes
at offsets `[18 i + 2, 18 i + 18)` (preceded by any two bytes, into any 16-byte
destination); any other input that has the same 16 bytes there gives the same
16 weight bytes. -/
theorem extract_q4_0_data_blocks (h : Host) (tensor : gguf_tensor) (W S B : Tensor)
    (hdata : 18 * S.get_size ≤ tensor.weights_data.length)
    (hW : 16 * S.get_size ≤ W.data.length) (hS : S.get_size ≤ S.data.length)
    (hB : S.get_size ≤ B.data.length) :
    ∃ W' S' B', extract_q4_0_data h tensor W S B = some (W', S', B') ∧
      ∀ i, i < S.get_size →
        (∀ (s0 s1 : Nat) (dst : Buffer), dst.length = 16 →
          unpack_32_4 (s0 :: s1 :: (tensor.weights_data.drop (18 * i + 2)).take 16) 0 dst 0
            = some ((W'.data.drop (16 * i)).take 16)) ∧
        (∀ tensor' : gguf_tensor, 18 * S.get_size ≤ tensor'.weights_data.length →
          (tensor'.weights_data.drop (18 * i + 2)).take 16
            = (tensor.weights_data.drop (18 * i + 2)).take 16 →
          ∃ W'' S'' B'', extract_q4_0_data h tensor' W S B = some (W'', S'', B'') ∧
            (W''.data.drop (16 * i)).take 16 = (W'.data.drop (16 * i)).take 16) := by
  obtain ⟨w, s, b, hrun, _, _, _, hw, _, _⟩ :=
    extract_q4_0_data_spec h tensor W S B hdata hW hS hB
  refine ⟨_, _, _, hrun, fun i hi => ⟨fun s0 s1 dst hdst => ?_, fun tensor' hdata' hsame => ?_⟩⟩
  · exact q4_window_eq_unpack tensor.weights_data 18 S.get_size w W.data hw i hi (by omega)
      s0 s1 dst hdst
  · obtain ⟨w', s', b', hrun', _, _, _, hw', _, _⟩ :=
      extract_q4_0_data_spec h tensor' W S B hdata' hW hS hB
    refine ⟨_, _, _, hrun', ?_⟩
    have e1 := q4_window_eq_unpack tensor.weights_data 18 S.get_size w W.data hw i hi
      (by omega) 0 0 (List.replicate 16 0) (by simp)
    have e2 := q4_window_eq_unpack tensor'.weights_data 18 S.get_size w' W.data hw' i hi
      (by omega) 0 0 (List.replicate 16 0) (by simp)
    rw [hsame, e1] at e2
    exact (Option.some.inj e2).symm

/-- The contract of C2 on a two-block input: the second 16 weight bytes are
the unpacking of input bytes `20 ..< 36`. -/
theorem extract_q4_0_data_blocks_witness :
    ∃ W' S' B', extract_q4_0_data sample_host sample_q4_0
        (Tensor.alloc sample_host 0 .u32 [8]) (Tensor.alloc sample_host 1 .f16 [2])
        (Tensor.alloc sample_host 2 .f16 [2]) = some (W', S', B') ∧
      unpack_32_4 (0 :: 0 :: (sample_q4_0.weights_data.drop (18 * 1 + 2)).take 16) 0
        (List.replicate 16 0) 0 = some ((W'.data.drop (16 * 1)).take 16) := by
  obtain ⟨W', S', B', hrun, hblocks⟩ := extract_q4_0_data_blocks sample_host sample_q4_0
    (Tensor.alloc sample_host 0 .u32 [8]) (Tensor.alloc sample_host 1 .f16 [2])
    (Tensor.alloc sample_host 2 .f16 [2]) (by decide) (by decide) (by decide) (by decide)
  exact ⟨W', S', B', hrun, (hblocks 1 (by decide)).1 0 0 (List.replicate 16 0) (by decide)⟩

/-- Evaluation for C3: on one 20-byte block whose bias bytes are `0xFF 0xFF`
and whose 16 code bytes (block offsets `4 ..< 20`) are all zero,
`extract_q4_1_data` stores the weight bytes `FF 00 .. 00 FF 00 .. 00`, whereas
the nibble unpacking of the code field is sixteen zero bytes. -/
theorem extract_q4_1_data_reads_bias_bytes :
    extract_q4_1_data sample_q4_1 (Tensor.alloc sample_host 0 .u32 [4])
        (Tensor.alloc sample_host 1 .f16 [1]) (Tensor.alloc sample_host 2 .f16 [1])
      = some (⟨.u32, [4], [255, 0, 0, 0, 0, 0, 0, 0, 255, 0, 0, 0, 0, 0, 0, 0]⟩,
          ⟨.f16, [1], [0x3C00]⟩, ⟨.f16, [1], [0xFFFF]⟩) ∧
    unpack_32_4 (0 :: 0 :: (sample_q4_1.weights_data.drop (20 * 0 + 4)).take 16) 0
        (List.replicate 16 0) 0 = some (List.replicate 16 0) := by
  decide

/-! ## The 8-bit extractor -/

theorem q8_inner_spec (data : Buffer) (bd wp i : Nat) (wbuf : Buffer)
    (hd : bd + 34 ≤ data.length) (hw : wp + (i * 32 + 32) ≤ wbuf.length) :
    ∃ out, q8_inner data bd wp i wbuf = some out ∧ out.length = wbuf.length ∧
      ∀ idx, out[idx]? =
        if wp + i * 32 ≤ idx ∧ idx < wp + i * 32 + 32
        then some ((data.getD (bd + (2 + (idx - (wp + i * 32)))) 0 ^^^ (1 <<< 7)) % 256)
        else wbuf[idx]? := by
  have := forLoop_inv (fun j wbuf =>
      (load data (bd + (j + 2))).bind fun x =>
        store wbuf (wp + (i * 32 + j)) ((x ^^^ (1 <<< 7)) % 256))
    (fun j out => out.length = wbuf.length ∧
      ∀ idx, out[idx]? =
        if wp + i * 32 ≤ idx ∧ idx < wp + i * 32 + j
        then some ((data.getD (bd + (2 + (idx - (wp + i * 32)))) 0 ^^^ (1 <<< 7)) % 256)
        else wbuf[idx]?)
    32 wbuf ⟨rfl, fun idx => by rw [if_neg (by omega)]⟩
    (fun j t hj ht => by
      obtain ⟨hl, hv⟩ := ht
      refine ⟨t.set (wp + (i * 32 + j))
        ((data.getD (bd + (j + 2)) 0 ^^^ (1 <<< 7)) % 256), ?_, by simp [hl], fun idx => ?_⟩
      · beta_reduce
        rw [@load_of_lt data (bd + (j + 2)) (by omega), Option.some_bind,
          store_of_lt _ (by omega)]
      · rw [List.getElem?_set]
        by_cases h1 : wp + (i * 32 + j) = idx
        · subst h1
          have e : bd + (2 + (wp + (i * 32 + j) - (wp + i * 32))) = bd + (j + 2) := by omega
          rw [if_pos rfl, if_pos (by omega), if_pos (by omega), e]
        · rw [if_neg h1, hv idx]
          by_cases h2 : wp + i * 32 ≤ idx ∧ idx < wp + i * 32 + j
          · rw [if_pos h2, if_pos (by omega)]
          · rw [if_neg h2, if_neg (by omega)])
  exact this

theorem extract_q8_0_data_eq (h : Host) (tensor : gguf_tensor) (W S B : Tensor) :
    extract_q8_0_data h tensor W S B =
      (forLoop S.get_size (q8_step h tensor.weights_data)
        ⟨0, 0, W.data, S.data, B.data⟩).map
        (fun st => ({ W with data := st.wbuf }, { S with data := st.scales },
          { B with data := st.biases })) := by
  unfold extract_q8_0_data
  dsimp only
  show (forLoop S.get_size (q8_step h tensor.weights_data)
    ⟨0, 0, W.data, S.data, B.data⟩).bind _ = _
  cases forLoop S.get_size (q8_step h tensor.weights_data)
    ⟨0, 0, W.data, S.data, B.data⟩ <;> rfl

/-- Full description of a run of `extract_q8_0_data` on buffers that are
large enough: it returns, and each output buffer is given cell by cell. -/
theorem extract_q8_0_data_spec (h : Host) (tensor : gguf_tensor) (W S B : Tensor)
    (hdata : 34 * S.get_size ≤ tensor.weights_data.length)
    (hW : 32 * S.get_size ≤ W.data.length) (hS : S.get_size ≤ S.data.length)
    (hB : S.get_size ≤ B.data.length) :
    ∃ w s b, extract_q8_0_data h tensor W S B
        = some ({ W with data := w }, { S with data := s }, { B with data := b }) ∧
      w.length = W.data.length ∧ s.length = S.data.length ∧ b.length = B.data.length ∧
      (∀ idx, w[idx]? = if idx < 32 * S.get_size
        then some (q8_weight_byte tensor.weights_data idx) else W.data[idx]?) ∧
      (∀ idx, s[idx]? = if idx < S.get_size
        then some (u16_at tensor.weights_data (34 * idx)) else S.data[idx]?) ∧
      (∀ idx, b[idx]? = if idx < S.get_size
        then some (h.f16_scale (-128) (u16_at tensor.weights_data (34 * idx)))
        else B.data[idx]?) := by
  have := forLoop_inv (q8_step h tensor.weights_data)
    (fun i st => st.data = 0 ∧ st.weights = 0 ∧
      st.wbuf.length = W.data.length ∧ st.scales.length = S.data.length ∧
      st.biases.length = B.data.length ∧
      (∀ idx, st.wbuf[idx]? = if idx < 32 * i
        then some (q8_weight_byte tensor.weights_data idx) else W.data[idx]?) ∧
      (∀ idx, st.scales[idx]? = if idx < i
        then some (u16_at tensor.weights_data (34 * idx)) else S.data[idx]?) ∧
      (∀ idx, st.biases[idx]? = if idx < i
        then some (h.f16_scale (-128) (u16_at tensor.weights_data (34 * idx)))
        else B.data[idx]?))
    S.get_size ⟨0, 0, W.data, S.data, B.data⟩
    ⟨rfl, rfl, rfl, rfl, rfl, fun idx => by simp, fun idx => by simp, fun idx => by simp⟩
    (fun i st hi hI => by
      obtain ⟨hdp, hwp, hlw, hls, hlb, hw, hs, hb⟩ := hI
      have hsc : (st.scales.set i (u16_at tensor.weights_data (0 + i * 34)))[i]?
          = some (u16_at tensor.weights_data (0 + i * 34)) := by
        rw [List.getElem?_set, if_pos rfl, if_pos (by omega)]
      obtain ⟨out, hout, hlo, hval⟩ := q8_inner_spec tensor.weights_data (0 + i * 34) 0 i
        st.wbuf (by omega) (by omega)
      have e34 : 0 + i * 34 = 34 * i := by omega
      refine ⟨⟨0, 0, out, st.scales.set i (u16_at tensor.weights_data (0 + i * 34)),
        st.biases.set i (h.f16_scale (-128) (u16_at tensor.weights_data (0 + i * 34)))⟩,
        ?_, ?_⟩
      · unfold q8_step
        rw [hdp, hwp, read_u16_zero (by omega), Option.some_bind,
          store_of_lt _ (by omega), Option.some_bind,
          load_of_lt (lt_of_getElem? hsc), getD_of_getElem? hsc, Option.some_bind,
          store_of_lt _ (by omega), Option.some_bind, hout, Option.some_bind]
      · refine ⟨rfl, rfl, by simp [hlo, hlw], by simp [hls], by simp [hlb],
          fun idx => ?_, fun idx => ?_, fun idx => ?_⟩
        · show out[idx]? = _
          rw [hval idx]
          by_cases h1 : 0 + i * 32 ≤ idx ∧ idx < 0 + i * 32 + 32
          · have hq : idx / 32 = i := by omega
            have hr : idx - (0 + i * 32) = idx % 32 := by omega
            rw [if_pos h1, if_pos (by omega)]
            unfold q8_weight_byte
            rw [hq, hr, e34]
          · rw [if_neg h1, hw idx]
            by_cases h2 : idx < 32 * i
            · rw [if_pos h2, if_pos (by omega)]
            · rw [if_neg h2, if_neg (by omega)]
        · show (st.scales.set i _)[idx]? = _
          rw [List.getElem?_set]
          by_cases h1 : i = idx
          · subst h1
            rw [if_pos rfl, if_pos (by omega), if_pos (by omega), e34]
          · rw [if_neg h1, hs idx]
            by_cases h2 : idx < i
            · rw [if_pos h2, if_pos (by omega)]
            · rw [if_neg h2, if_neg (by omega)]
        · show (st.biases.set i _)[idx]? = _
          rw [List.getElem?_set]
          by_cases h1 : i = idx
          · subst h1
            rw [if_pos rfl, if_pos (by omega), if_pos (by omega), e34]
          · rw [if_neg h1, hb idx]
            by_cases h2 : idx < i
            · rw [if_pos h2, if_pos (by omega)]
            · rw [if_neg h2, if_neg (by omega)])
  obtain ⟨st, hst, _, _, h1, h2, h3, h4, h5, h6⟩ := this
  refine ⟨st.wbuf, st.scales, st.biases, ?_, h1, h2, h3, h4, h5, h6⟩
  rw [extract_q8_0_data_eq, hst]
  rfl

theorem flip_msb_of_byte {x : Nat} (hx : x < 256) : (x ^^^ (1 <<< 7)) % 256 = x ^^^ 0x80 := by
  have h1 : (1 <<< 7 : Nat) = 0x80 := by decide
  have h2 : x ^^^ 0x80 < 2 ^ 8 := Nat.xor_lt_two_pow (by omega) (by decide)
  rw [h1]
  exact Nat.mod_eq_of_lt h2

/-- C4. `extract_q8_0_data` stores every code byte with its most significant
bit flipped. On an input of at least `n` blocks of 34 bytes and output
tensors with room for `n` blocks the call returns; for every block `i < n` and
every `j < 32` weight byte `32 i + j` is input byte `34 i + 2 + j` XOR `0x80`; the
weight buffer keeps its length and every byte from index `32 n` on keeps its
previous content. -/
theorem extract_q8_0_data_codes (h : Host) (tensor : gguf_tensor) (W S B : Tensor)
    (hdata : 34 * S.get_size ≤ tensor.weights_data.length)
    (hbytes : ∀ b ∈ tensor.weights_data, b < 256)
    (hW : 32 * S.get_size ≤ W.data.length) (hS : S.get_size ≤ S.data.length)
    (hB : S.get_size ≤ B.data.length) :
    ∃ W' S' B', extract_q8_0_data h tensor W S B = some (W', S', B') ∧
      W'.data.length = W.data.length ∧
      (∀ i j, i < S.get_size → j < 32 →
        W'.data[32 * i + j]? = some (tensor.weights_data.getD (34 * i + 2 + j) 0 ^^^ 0x80)) ∧
      (∀ idx, 32 * S.get_size ≤ idx → W'.data[idx]? = W.data[idx]?) := by
  obtain ⟨w, s, b, hrun, hl, _, _, hw, _, _⟩ :=
    extract_q8_0_data_spec h tensor W S B hdata hW hS hB
  refine ⟨_, _, _, hrun, hl, fun i j hi hj => ?_, fun idx hidx => ?_⟩
  · show w[32 * i + j]? = _
    have hq : (32 * i + j) / 32 = i := by omega
    have hr : (32 * i + j) % 32 = j := by omega
    rw [hw, if_pos (by omega)]
    unfold q8_weight_byte
    rw [hq, hr, flip_msb_of_byte (getD_lt_of_bytes hbytes _), Nat.add_assoc]
  · show w[idx]? = _
    rw [hw, if_neg (by omega)]

/-- The contract of C4 on a two-block input: weight byte `32 * 1 + 5` is input
byte `34 * 1 + 2 + 5 = 229` with its top bit flipped, that is `101`. -/
theorem extract_q8_0_data_codes_witness :
    ∃ W' S' B', extract_q8_0_data sample_host sample_q8_0
        (Tensor.alloc sample_host 0 .u32 [16]) (Tensor.alloc sample_host 1 .f16 [2])
        (Tensor.alloc sample_host 2 .f16 [2]) = some (W', S', B') ∧
      W'.data[32 * 1 + 5]? = some 101 := by
  obtain ⟨W', S', B', hrun, _, hcodes, _⟩ := extract_q8_0_data_codes sample_host sample_q8_0
    (Tensor.alloc sample_host 0 .u32 [16]) (Tensor.alloc sample_host 1 .f16 [2])
    (Tensor.alloc sample_host 2 .f16 [2]) (by decide) (by decide) (by decide) (by decide)
    (by decide)
  exact ⟨W', S', B', hrun, hcodes 1 5 (by decide) (by decide)⟩

/-- C5. The 16-bit scalar fields are copied bit for bit. For each of the
three extractors, run on an input of at least `n` blocks and output tensors
with room for `n` blocks, the call returns and the bit pattern of `scales[i]`
is `byte0 + 256 * byte1` of block `i`; for `extract_q4_1_data` the bit pattern of
`biases[i]` is `byte2 + 256 * byte3` of block `i`. -/
theorem scalar_fields_copied (h : Host) (tensor : gguf_tensor) (W S B : Tensor)
    (hS : S.get_size ≤ S.data.length) (hB : S.get_size ≤ B.data.length) :
    (18 * S.get_size ≤ tensor.weights_data.length → 16 * S.get_size ≤ W.data.length →
      ∃ W' S' B', extract_q4_0_data h tensor W S B = some (W', S', B') ∧
        ∀ i, i < S.get_size → S'.data[i]? =
          some (tensor.weights_data.getD (18 * i) 0
            + 256 * tensor.weights_data.getD (18 * i + 1) 0)) ∧
    (20 * S.get_size ≤ tensor.weights_data.length → 16 * S.get_size ≤ W.data.length →
      ∃ W' S' B', extract_q4_1_data tensor W S B = some (W', S', B') ∧
        ∀ i, i < S.get_size →
          S'.data[i]? = some (tensor.weights_data.getD (20 * i) 0
            + 256 * tensor.weights_data.getD (20 * i + 1) 0) ∧
          B'.data[i]? = some (tensor.weights_data.getD (20 * i + 2) 0
            + 256 * tensor.weights_data.getD (20 * i + 3) 0)) ∧
    (34 * S.get_size ≤ tensor.weights_data.length → 32 * S.get_size ≤ W.data.length →
      ∃ W' S' B', extract_q8_0_data h tensor W S B = some (W', S', B') ∧
        ∀ i, i < S.get_size → S'.data[i]? =
          some (tensor.weights_data.getD (34 * i) 0
            + 256 * tensor.weights_data.getD (34 * i + 1) 0)) := by
  refine ⟨fun hdata hW => ?_, fun hdata hW => ?_, fun hdata hW => ?_⟩
  · obtain ⟨w, s, b, hrun, _, _, _, _, hs, _⟩ :=
      extract_q4_0_data_spec h tensor W S B hdata hW hS hB
    refine ⟨_, _, _, hrun, fun i hi => ?_⟩
    show s[i]? = _
    rw [hs, if_pos hi]
    rfl
  · obtain ⟨w, s, b, hrun, _, _, _, _, hs, hb⟩ :=
      extract_q4_1_data_spec tensor W S B hdata hW hS hB
    refine ⟨_, _, _, hrun, fun i hi => ⟨?_, ?_⟩⟩
    · show s[i]? = _
      rw [hs, if_pos hi]
      rfl
    · show b[i]? = _
      rw [hb, if_pos hi]
      rfl
  · obtain ⟨w, s, b, hrun, _, _, _, _, hs, _⟩ :=
      extract_q8_0_data_spec h tensor W S B hdata hW hS hB
    refine ⟨_, _, _, hrun, fun i hi => ?_⟩
    show s[i]? = _
    rw [hs, if_pos hi]
    rfl

/-- The contract of C5 on one block that starts `00 3C FF FF`: each of the
three extractors stores the scale pattern `0x3C00`, and `extract_q4_1_data`
stores the bias pattern `0xFFFF`. -/
theorem scalar_fields_copied_witness :
    (∃ W' S' B', extract_q4_0_data sample_host
        { sample_q4_1 with weights_data := [0x00, 0x3C, 0xFF, 0xFF] ++ List.replicate 30 0 }
        (Tensor.alloc sample_host 0 .u32 [8]) (Tensor.alloc sample_host 1 .f16 [1])
        (Tensor.alloc sample_host 2 .f16 [1]) = some (W', S', B') ∧
      S'.data[0]? = some 0x3C00) ∧
    (∃ W' S' B', extract_q4_1_data
        { sample_q4_1 with weights_data := [0x00, 0x3C, 0xFF, 0xFF] ++ List.replicate 30 0 }
        (Tensor.alloc sample_host 0 .u32 [8]) (Tensor.alloc sample_host 1 .f16 [1])
        (Tensor.alloc sample_host 2 .f16 [1]) = some (W', S', B') ∧
      S'.data[0]? = some 0x3C00 ∧ B'.data[0]? = some 0xFFFF) ∧
    (∃ W' S' B', extract_q8_0_data sample_host
        { sample_q4_1 with weights_data := [0x00, 0x3C, 0xFF, 0xFF] ++ List.replicate 30 0 }
        (Tensor.alloc sample_host 0 .u32 [8]) (Tensor.alloc sample_host 1 .f16 [1])
        (Tensor.alloc sample_host 2 .f16 [1]) = some (W', S', B') ∧
      S'.data[0]? = some 0x3C00) := by
  obtain ⟨h0, h1, h8⟩ := scalar_fields_copied sample_host
    { sample_q4_1 with weights_data := [0x00, 0x3C, 0xFF, 0xFF] ++ List.replicate 30 0 }
    (Tensor.alloc sample_host 0 .u32 [8]) (Tensor.alloc sample_host 1 .f16 [1])
    (Tensor.alloc sample_host 2 .f16 [1]) (by decide) (by decide)
  obtain ⟨W0, S0, B0, r0, s0⟩ := h0 (by decide) (by decide)
  obtain ⟨W1, S1, B1, r1, s1⟩ := h1 (by decide) (by decide)
  obtain ⟨W8, S8, B8, r8, s8⟩ := h8 (by decide) (by decide)
  exact ⟨⟨W0, S0, B0, r0, s0 0 (by decide)⟩,
    ⟨W1, S1, B1, r1, (s1 0 (by decide)).1, (s1 0 (by decide)).2⟩,
    ⟨W8, S8, B8, r8, s8 0 (by decide)⟩⟩

/-! ## The tensor assembler -/

theorem back_append (init : List Nat) (last : Nat) : back (init ++ [last]) = some last := by
  simp [back]

theorem set_back_append (init : List Nat) (last v : Nat) :
    set_back (init ++ [last]) v = init ++ [v] := by
  unfold set_back
  rw [List.set_append_right _ _ (by simp)]
  simp

theorem alloc_u32 (h : Host) (r : Nat) (shape : List Nat) :
    Tensor.alloc h r .u32 shape
      = ⟨.u32, shape, (List.range (4 * shape.prod)).map (fun i => h.uninit r i % 256)⟩ := rfl

theorem alloc_f16 (h : Host) (r : Nat) (shape : List Nat) :
    Tensor.alloc h r .f16 shape
      = ⟨.f16, shape, (List.range shape.prod).map (fun i => h.uninit r i % 65536)⟩ := rfl

theorem prod_append_single (init : List Nat) (v : Nat) : (init ++ [v]).prod = init.prod * v := by
  simp

/-- Lines 106-144 on a tensor whose last dimension is a multiple of 32: the
three tensors are allocated with the computed shapes and handed to the
extractor chosen by the type; for any other type they are returned as
allocated, because the assertion of line 143 cannot fail. -/
theorem gguf_load_quantized_tensors_eq (h : Host) (tensor : gguf_tensor)
    (init : List Nat) (last : Nat) (hshape : get_shape tensor = init ++ [last])
    (h32 : last % 32 = 0) :
    gguf_load_quantized_tensors h tensor =
      if tensor.type = GGUF_TYPE_Q4_0 then
        (extract_q4_0_data h tensor (Tensor.alloc h 0 .u32 (init ++ [last / 8]))
          (Tensor.alloc h 1 .f16 (init ++ [last / 32]))
          (Tensor.alloc h 2 .f16 (init ++ [last / 32]))).map
          (fun r => .ok (tensor.name, r.1, r.2.1, r.2.2))
      else if tensor.type = GGUF_TYPE_Q4_1 then
        (extract_q4_1_data tensor (Tensor.alloc h 0 .u32 (init ++ [last / 8]))
          (Tensor.alloc h 1 .f16 (init ++ [last / 32]))
          (Tensor.alloc h 2 .f16 (init ++ [last / 32]))).map
          (fun r => .ok (tensor.name, r.1, r.2.1, r.2.2))
      else if tensor.type = GGUF_TYPE_Q8_0 then
        (extract_q8_0_data h tensor (Tensor.alloc h 0 .u32 (init ++ [last / 4]))
          (Tensor.alloc h 1 .f16 (init ++ [last / 32]))
          (Tensor.alloc h 2 .f16 (init ++ [last / 32]))).map
          (fun r => .ok (tensor.name, r.1, r.2.1, r.2.2))
      else
        some (.ok (tensor.name, Tensor.alloc h 0 .u32 (init ++ [last / 4]),
          Tensor.alloc h 1 .f16 (init ++ [last / 32]),
          Tensor.alloc h 2 .f16 (init ++ [last / 32]))) := by
  unfold gguf_load_quantized_tensors
  simp only [hshape, back_append, set_back_append, OPENVINO_ASSERT, h32, beq_self_eq_true,
    if_true]
  by_cases h0 : tensor.type = GGUF_TYPE_Q4_0
  · simp [h0]
  · by_cases h1 : tensor.type = GGUF_TYPE_Q4_1
    · simp [h1]
    · by_cases h8 : tensor.type = GGUF_TYPE_Q8_0
      · simp [h8]
      · simp [h0, h1, h8]

/-- Sizes of the allocated buffers against the number of blocks. -/
theorem alloc_sizes (h : Host) (init : List Nat) (last : Nat) (h32 : last % 32 = 0) :
    (Tensor.alloc h 1 .f16 (init ++ [last / 32])).get_size = init.prod * (last / 32) ∧
    (Tensor.alloc h 1 .f16 (init ++ [last / 32])).data.length = init.prod * (last / 32) ∧
    (Tensor.alloc h 2 .f16 (init ++ [last / 32])).data.length = init.prod * (last / 32) ∧
    (Tensor.alloc h 0 .u32 (init ++ [last / 8])).data.length
      = 16 * (init.prod * (last / 32)) ∧
    (Tensor.alloc h 0 .u32 (init ++ [last / 4])).data.length
      = 32 * (init.prod * (last / 32)) := by
  obtain ⟨m, rfl⟩ : ∃ m, last = 32 * m := ⟨last / 32, by omega⟩
  have e32 : 32 * m / 32 = m := by omega
  have e8 : 32 * m / 8 = 4 * m := by omega
  have e4 : 32 * m / 4 = 8 * m := by omega
  have p4 : init.prod * (4 * m) = 4 * (init.prod * m) := by ring
  have p8 : init.prod * (8 * m) = 8 * (init.prod * m) := by ring
  simp only [alloc_u32, alloc_f16, Tensor.get_size, prod_append_single, List.length_map,
    List.length_range, e32, e8, e4, p4, p8]
  refine ⟨trivial, trivial, trivial, by omega, by omega⟩

/-- Lines 106-144 on a valid tensor of a supported type: the extractor of the
type runs to its end on the three freshly allocated tensors, and the result
carries the computed shapes. -/
theorem gguf_load_quantized_tensors_ok (h : Host) (tensor : gguf_tensor)
    (init : List Nat) (last : Nat) (hshape : get_shape tensor = init ++ [last])
    (h32 : last % 32 = 0)
    (htype : tensor.type = GGUF_TYPE_Q4_0 ∨ tensor.type = GGUF_TYPE_Q4_1 ∨
      tensor.type = GGUF_TYPE_Q8_0)
    (hdata : bytes_per_block tensor.type * (init.prod * (last / 32))
      ≤ tensor.weights_data.length) :
    ∃ W S B, gguf_load_quantized_tensors h tensor = some (.ok (tensor.name, W, S, B)) ∧
      W.element_type = .u32 ∧ S.element_type = .f16 ∧ B.element_type = .f16 ∧
      W.shape = init ++ [last / (if tensor.type = GGUF_TYPE_Q8_0 then 4 else 8)] ∧
      S.shape = init ++ [last / 32] ∧ B.shape = init ++ [last / 32] ∧
      (tensor.type = GGUF_TYPE_Q4_0 →
        extract_q4_0_data h tensor (Tensor.alloc h 0 .u32 (init ++ [last / 8]))
          (Tensor.alloc h 1 .f16 (init ++ [last / 32]))
          (Tensor.alloc h 2 .f16 (init ++ [last / 32])) = some (W, S, B)) ∧
      (tensor.type = GGUF_TYPE_Q4_1 →
        extract_q4_1_data tensor (Tensor.alloc h 0 .u32 (init ++ [last / 8]))
          (Tensor.alloc h 1 .f16 (init ++ [last / 32]))
          (Tensor.alloc h 2 .f16 (init ++ [last / 32])) = some (W, S, B)) ∧
      (tensor.type = GGUF_TYPE_Q8_0 →
        extract_q8_0_data h tensor (Tensor.alloc h 0 .u32 (init ++ [last / 4]))
          (Tensor.alloc h 1 .f16 (init ++ [last / 32]))
          (Tensor.alloc h 2 .f16 (init ++ [last / 32])) = some (W, S, B)) := by
  obtain ⟨hn, hs, hb, hw8, hw4⟩ := alloc_sizes h init last h32
  rw [gguf_load_quantized_tensors_eq h tensor init last hshape h32]
  rcases htype with ht | ht | ht
  · rw [ht] at hdata
    obtain ⟨w, s, b, hrun, _⟩ := extract_q4_0_data_spec h tensor
      (Tensor.alloc h 0 .u32 (init ++ [last / 8])) (Tensor.alloc h 1 .f16 (init ++ [last / 32]))
      (Tensor.alloc h 2 .f16 (init ++ [last / 32]))
      (by rw [hn]; exact hdata) (by rw [hn, hw8]) (by rw [hn, hs]) (by rw [hn, hb])
    refine ⟨_, _, _, ?_, rfl, rfl, rfl, ?_, rfl, rfl, fun _ => hrun, ?_, ?_⟩
    · rw [if_pos ht, hrun]; rfl
    · rw [ht]; rfl
    · intro hc; rw [ht] at hc; cases hc
    · intro hc; rw [ht] at hc; cases hc
  · rw [ht] at hdata
    obtain ⟨w, s, b, hrun, _⟩ := extract_q4_1_data_spec tensor
      (Tensor.alloc h 0 .u32 (init ++ [last / 8])) (Tensor.alloc h 1 .f16 (init ++ [last / 32]))
      (Tensor.alloc h 2 .f16 (init ++ [last / 32]))
      (by rw [hn]; exact hdata) (by rw [hn, hw8]) (by rw [hn, hs]) (by rw [hn, hb])
    refine ⟨_, _, _, ?_, rfl, rfl, rfl, ?_, rfl, rfl, ?_, fun _ => hrun, ?_⟩
    · rw [if_neg (by rw [ht]; decide), if_pos ht, hrun]; rfl
    · rw [ht]; rfl
    · intro hc; rw [ht] at hc; cases hc
    · intro hc; rw [ht] at hc; cases hc
  · rw [ht] at hdata
    obtain ⟨w, s, b, hrun, _⟩ := extract_q8_0_data_spec h tensor
      (Tensor.alloc h 0 .u32 (init ++ [last / 4])) (Tensor.alloc h 1 .f16 (init ++ [last / 32]))
      (Tensor.alloc h 2 .f16 (init ++ [last / 32]))
      (by rw [hn]; exact hdata) (by rw [hn, hw4]) (by rw [hn, hs]) (by rw [hn, hb])
    refine ⟨_, _, _, ?_, rfl, rfl, rfl, ?_, rfl, rfl, ?_, ?_, fun _ => hrun⟩
    · rw [if_neg (by rw [ht]; decide), if_neg (by rw [ht]; decide), if_pos ht, hrun]; rfl
    · rw [ht]; rfl
    · intro hc; rw [ht] at hc; cases hc
    · intro hc; rw [ht] at hc; cases hc

/-- C6. `gguf_load_quantized` computes the output shapes from the input shape.
For a tensor of a supported type whose shape is `init ++ [last]` with `last` a
multiple of 32 (and whose buffer holds its blocks), lines 106-144 return three
tensors: the weights have shape `init ++ [last / 8]` for Q4_0 and Q4_1 and
`init ++ [last / 4]` for Q8_0, the scales and the biases both have shape
`init ++ [last / 32]`. -/
theorem gguf_load_quantized_shapes (h : Host) (tensor : gguf_tensor)
    (init : List Nat) (last : Nat) (hshape : get_shape tensor = init ++ [last])
    (h32 : last % 32 = 0)
    (htype : tensor.type = GGUF_TYPE_Q4_0 ∨ tensor.type = GGUF_TYPE_Q4_1 ∨
      tensor.type = GGUF_TYPE_Q8_0)
    (hdata : bytes_per_block tensor.type * (init.prod * (last / 32))
      ≤ tensor.weights_data.length) :
    ∃ W S B, gguf_load_quantized_tensors h tensor = some (.ok (tensor.name, W, S, B)) ∧
      (tensor.type = GGUF_TYPE_Q4_0 ∨ tensor.type = GGUF_TYPE_Q4_1 →
        W.shape = init ++ [last / 8]) ∧
      (tensor.type = GGUF_TYPE_Q8_0 → W.shape = init ++ [last / 4]) ∧
      S.shape = init ++ [last / 32] ∧ B.shape = init ++ [last / 32] := by
  obtain ⟨W, S, B, hrun, _, _, _, hW, hS, hB, _⟩ :=
    gguf_load_quantized_tensors_ok h tensor init last hshape h32 htype hdata
  refine ⟨W, S, B, hrun, fun ht => ?_, fun ht => ?_, hS, hB⟩
  · rw [hW, if_neg (by rcases ht with ht | ht <;> rw [ht] <;> decide)]
  · rw [hW, if_pos ht]

/-- The two instances named in C6: shape `[64]` gives weights `[8]` for Q4_0 and
`[16]` for Q8_0, scales and biases `[2]`. -/
theorem gguf_load_quantized_shapes_witness :
    (∃ W S B, gguf_load_quantized_tensors sample_host sample_q4_0
        = some (.ok (sample_q4_0.name, W, S, B)) ∧
      W.shape = [8] ∧ S.shape = [2] ∧ B.shape = [2]) ∧
    (∃ W S B, gguf_load_quantized_tensors sample_host sample_q8_0
        = some (.ok (sample_q8_0.name, W, S, B)) ∧
      W.shape = [16] ∧ S.shape = [2] ∧ B.shape = [2]) := by
  obtain ⟨W, S, B, hrun, hW, _, hS, hB⟩ := gguf_load_quantized_shapes sample_host sample_q4_0
    [] 64 (by decide) (by decide) (by decide) (by decide)
  obtain ⟨W', S', B', hrun', _, hW', hS', hB'⟩ := gguf_load_quantized_shapes sample_host
    sample_q8_0 [] 64 (by decide) (by decide) (by decide) (by decide)
  exact ⟨⟨W, S, B, hrun, hW (by decide), hS, hB⟩, ⟨W', S', B', hrun', hW' (by decide), hS', hB'⟩⟩

theorem emplace_of_fresh (a : TensorMap) (key : List Char) (value : Tensor)
    (hfresh : a.lookup key = none) :
    emplace a key value = (a ++ [(key, value)], ((key, value), true)) := by
  simp [emplace, hfresh]

theorem emplace_of_found (a : TensorMap) (key : List Char) (value found : Tensor)
    (hfound : a.lookup key = some found) :
    emplace a key value = (a, ((key, found), false)) := by
  simp [emplace, hfound]

theorem lookup_append_single (a : TensorMap) (k key : List Char) (value : Tensor) :
    (a ++ [(key, value)]).lookup k
      = (a.lookup k).or (if k = key then some value else none) := by
  rw [List.lookup_append]
  congr 1
  by_cases hk : k = key
  · simp [List.lookup, hk]
  · have : (k == key) = false := by simpa using hk
    simp [List.lookup, hk, this]

theorem weight_suffix_length : ".weight".toList.length = 7 := by decide

/-- The derived base name of line 153 for a name that ends in `.weight`. -/
theorem name_prefix_of_weight (p : List Char) (hlen : (p ++ ".weight".toList).length < 2 ^ 64) :
    substr (p ++ ".weight".toList) 0
      (((p ++ ".weight".toList).length + 2 ^ 64 - ".weight".toList.length) % 2 ^ 64) = p := by
  rw [List.length_append, weight_suffix_length] at *
  have e : (p.length + 7 + 2 ^ 64 - 7) % 2 ^ 64 = p.length := by omega
  rw [e]
  simp [substr]

theorem suffix_ne (p : List Char) :
    p ++ ".scales".toList ≠ p ++ ".weight".toList ∧
    p ++ ".biases".toList ≠ p ++ ".weight".toList ∧
    p ++ ".biases".toList ≠ p ++ ".scales".toList := by
  refine ⟨fun hc => ?_, fun hc => ?_, fun hc => ?_⟩ <;>
    exact absurd (List.append_cancel_left hc) (by decide)

/-- C9. `gguf_load_quantized` rejects an incompatible shape before producing
anything: when the last dimension is not a multiple of 32, whatever the type,
the name and the map, the call fails with the incompatible-shape error and
leaves the map as it was. -/
theorem gguf_load_quantized_rejects_shape (h : Host) (a : TensorMap) (tensor : gguf_tensor)
    (init : List Nat) (last : Nat) (hshape : get_shape tensor = init ++ [last])
    (h32 : last % 32 ≠ 0) :
    gguf_load_quantized h a tensor
      = some ⟨a, some (.incompatible_last_dim tensor.name last)⟩ := by
  have ht : gguf_load_quantized_tensors h tensor
      = some (.error (.incompatible_last_dim tensor.name last)) := by
    unfold gguf_load_quantized_tensors
    simp [hshape, back_append, OPENVINO_ASSERT, h32]
  unfold gguf_load_quantized
  rw [ht]

/-- The contract of C9 on a Q4_0 tensor of shape `[33]` and a map that already
holds an entry. -/
theorem gguf_load_quantized_rejects_shape_witness :
    gguf_load_quantized sample_host [("tok.weight".toList, ⟨.f16, [1], [7]⟩)]
        { sample_q4_0 with shape := [33] }
      = some ⟨[("tok.weight".toList, ⟨.f16, [1], [7]⟩)],
          some (.incompatible_last_dim "blk.0.weight".toList 33)⟩ :=
  gguf_load_quantized_rejects_shape sample_host [("tok.weight".toList, ⟨.f16, [1], [7]⟩)]
    { sample_q4_0 with shape := [33] } [] 33 (by decide) (by decide)

/-- The insertions of lines 146-155 once lines 106-144 have produced the
three tensors, for a name `p ++ ".weight"` and a map holding none of the
three keys. -/
theorem gguf_load_quantized_inserts (h : Host) (a : TensorMap) (tensor : gguf_tensor)
    (p : List Char) (W S B : Tensor)
    (hname : tensor.name = p ++ ".weight".toList) (hlen : tensor.name.length < 2 ^ 64)
    (hrun : gguf_load_quantized_tensors h tensor = some (.ok (tensor.name, W, S, B)))
    (hw : a.lookup (p ++ ".weight".toList) = none)
    (hs : a.lookup (p ++ ".scales".toList) = none)
    (hb : a.lookup (p ++ ".biases".toList) = none) :
    gguf_load_quantized h a tensor
      = some ⟨a ++ [(p ++ ".weight".toList, W), (p ++ ".scales".toList, S),
          (p ++ ".biases".toList, B)], none⟩ := by
  obtain ⟨n1, n2, n3⟩ := suffix_ne p
  have hs1 : (a ++ [(p ++ ".weight".toList, W)]).lookup (p ++ ".scales".toList) = none := by
    rw [lookup_append_single, hs, if_neg n1]; rfl
  have hb1 : ((a ++ [(p ++ ".weight".toList, W)]) ++ [(p ++ ".scales".toList, S)]).lookup
      (p ++ ".biases".toList) = none := by
    rw [lookup_append_single, lookup_append_single, hb, if_neg n2, if_neg n3]; rfl
  unfold gguf_load_quantized
  rw [hrun]
  simp only [hname] at hlen ⊢
  rw [name_prefix_of_weight p hlen, emplace_of_fresh _ _ _ hw, emplace_of_fresh _ _ _ hs1]
  simp only [OPENVINO_ASSERT, if_true]
  rw [emplace_of_fresh _ _ _ hb1]
  simp only [if_true, List.append_assoc, List.singleton_append, List.cons_append,
    List.nil_append]

/-- C10. Success postcondition of `gguf_load_quantized`. For a valid tensor
(supported type, last dimension a multiple of 32, buffer holding its blocks)
named `p ++ ".weight"` and a map containing none of `p ++ ".weight"`,
`p ++ ".scales"`, `p ++ ".biases"`, the call returns without error and the map
is the old map extended with exactly three entries: the name mapped to the
weights, `p ++ ".scales"` to the scales and `p ++ ".biases"` to the biases that
the extractor of the tensor's type produced; every other key is looked up as
in the old map. -/
theorem gguf_load_quantized_success (h : Host) (a : TensorMap) (tensor : gguf_tensor)
    (p : List Char) (init : List Nat) (last : Nat)
    (hname : tensor.name = p ++ ".weight".toList) (hlen : tensor.name.length < 2 ^ 64)
    (hshape : get_shape tensor = init ++ [last]) (h32 : last % 32 = 0)
    (htype : tensor.type = GGUF_TYPE_Q4_0 ∨ tensor.type = GGUF_TYPE_Q4_1 ∨
      tensor.type = GGUF_TYPE_Q8_0)
    (hdata : bytes_per_block tensor.type * (init.prod * (last / 32))
      ≤ tensor.weights_data.length)
    (hw : a.lookup (p ++ ".weight".toList) = none)
    (hs : a.lookup (p ++ ".scales".toList) = none)
    (hb : a.lookup (p ++ ".biases".toList) = none) :
    ∃ W S B,
      (tensor.type = GGUF_TYPE_Q4_0 →
        extract_q4_0_data h tensor (Tensor.alloc h 0 .u32 (init ++ [last / 8]))
          (Tensor.alloc h 1 .f16 (init ++ [last / 32]))
          (Tensor.alloc h 2 .f16 (init ++ [last / 32])) = some (W, S, B)) ∧
      (tensor.type = GGUF_TYPE_Q4_1 →
        extract_q4_1_data tensor (Tensor.alloc h 0 .u32 (init ++ [last / 8]))
          (Tensor.alloc h 1 .f16 (init ++ [last / 32]))
          (Tensor.alloc h 2 .f16 (init ++ [last / 32])) = some (W, S, B)) ∧
      (tensor.type = GGUF_TYPE_Q8_0 →
        extract_q8_0_data h tensor (Tensor.alloc h 0 .u32 (init ++ [last / 4]))
          (Tensor.alloc h 1 .f16 (init ++ [last / 32]))
          (Tensor.alloc h 2 .f16 (init ++ [last / 32])) = some (W, S, B)) ∧
      gguf_load_quantized h a tensor
        = some ⟨a ++ [(p ++ ".weight".toList, W), (p ++ ".scales".toList, S),
            (p ++ ".biases".toList, B)], none⟩ ∧
      ∀ k, (a ++ [(p ++ ".weight".toList, W), (p ++ ".scales".toList, S),
          (p ++ ".biases".toList, B)]).lookup k
        = if k = p ++ ".weight".toList then some W
          else if k = p ++ ".scales".toList then some S
          else if k = p ++ ".biases".toList then some B
          else a.lookup k := by
  obtain ⟨W, S, B, hrun, _, _, _, _, _, _, h0, h1, h8⟩ :=
    gguf_load_quantized_tensors_ok h tensor init last hshape h32 htype hdata
  refine ⟨W, S, B, h0, h1, h8,
    gguf_load_quantized_inserts h a tensor p W S B hname hlen hrun hw hs hb, fun k => ?_⟩
  obtain ⟨n1, n2, n3⟩ := suffix_ne p
  have e : a ++ [(p ++ ".weight".toList, W), (p ++ ".scales".toList, S),
      (p ++ ".biases".toList, B)]
      = ((a ++ [(p ++ ".weight".toList, W)]) ++ [(p ++ ".scales".toList, S)])
        ++ [(p ++ ".biases".toList, B)] := by simp
  rw [e, lookup_append_single, lookup_append_single, lookup_append_single]
  generalize p ++ ".weight".toList = kw at hw n1 n2 ⊢
  generalize p ++ ".scales".toList = ks at hs n1 n3 ⊢
  generalize p ++ ".biases".toList = kb at hb n2 n3 ⊢
  by_cases k1 : k = kw
  · subst k1
    simp [hw, Ne.symm n1, Ne.symm n2]
  · by_cases k2 : k = ks
    · subst k2
      simp [hs, k1, Ne.symm n3]
    · by_cases k3 : k = kb
      · subst k3
        simp [hb, k1, k2]
      · simp [k1, k2, k3]

/-- The contract of C10 on the two-block Q4_0 tensor `blk.0.weight` and a map
that holds one unrelated entry. -/
theorem gguf_load_quantized_success_witness :
    ∃ W S B,
      gguf_load_quantized sample_host [("tok.weight".toList, ⟨.f16, [1], [7]⟩)] sample_q4_0
        = some ⟨[("tok.weight".toList, ⟨.f16, [1], [7]⟩), ("blk.0.weight".toList, W),
            ("blk.0.scales".toList, S), ("blk.0.biases".toList, B)], none⟩ ∧
      W.shape = [8] ∧ S.data = [0x3C00, 0x4000] := by
  obtain ⟨W, S, B, h0, _, _, hrun, _⟩ := gguf_load_quantized_success sample_host
    [("tok.weight".toList, ⟨.f16, [1], [7]⟩)] sample_q4_0 "blk.0".toList [] 64
    (by decide) (by decide) (by decide) (by decide) (by decide) (by decide) (by decide)
    (by decide) (by decide)
  have hW := h0 rfl
  have e : extract_q4_0_data sample_host sample_q4_0
      (Tensor.alloc sample_host 0 .u32 ([] ++ [64 / 8]))
      (Tensor.alloc sample_host 1 .f16 ([] ++ [64 / 32]))
      (Tensor.alloc sample_host 2 .f16 ([] ++ [64 / 32])) =
      some (⟨.u32, [8], [16, 50, 84, 118, 152, 186, 220, 254, 17, 17, 17, 17, 17, 17, 17, 17,
          16, 50, 84, 118, 152, 186, 220, 254, 255, 255, 255, 255, 255, 255, 255, 255]⟩,
        ⟨.f16, [2], [0x3C00, 0x4000]⟩, ⟨.f16, [2], [15352, 16376]⟩) := by decide
  rw [e] at hW
  obtain ⟨rfl, rfl, rfl⟩ : _ ∧ _ ∧ _ := by
    have := Option.some.inj hW
    exact ⟨congrArg (·.1) this, congrArg (·.2.1) this, congrArg (·.2.2) this⟩
  exact ⟨_, _, _, hrun, rfl, rfl⟩

/-- Evaluation for C7: a tensor of an unsupported type (tag 6), shape `[32]`,
named `blk.0.weight`, loaded into an empty map. The call returns without any
error and inserts three entries whose storage is still as allocated (`0xAA`
for this host). -/
theorem gguf_load_quantized_accepts_unsupported :
    gguf_load_quantized sample_host []
        ⟨"blk.0.weight".toList, other 6, [32], List.replicate 22 0⟩
      = some ⟨[("blk.0.weight".toList, ⟨.u32, [8], List.replicate 32 0xAA⟩),
          ("blk.0.scales".toList, ⟨.f16, [1], [0xAA]⟩),
          ("blk.0.biases".toList, ⟨.f16, [1], [0xAA]⟩)], none⟩ := by
  decide

/-- Evaluation for C8: the two-block Q4_0 tensor `blk.0.weight` loaded into a map
that already holds the key `blk.0.weight` and neither derived key. The call
returns without any error, the old entry stays, the new weights are dropped
and the scales and biases are inserted. -/
theorem gguf_load_quantized_unchecked_first_insert :
    gguf_load_quantized sample_host [("blk.0.weight".toList, ⟨.f16, [1], [7]⟩)] sample_q4_0
      = some ⟨[("blk.0.weight".toList, ⟨.f16, [1], [7]⟩),
          ("blk.0.scales".toList, ⟨.f16, [2], [0x3C00, 0x4000]⟩),
          ("blk.0.biases".toList, ⟨.f16, [2], [15352, 16376]⟩)], none⟩ := by
  decide

/-! ## Collisions and the frame of the insertions -/

theorem emplace_lookup_mono (a : TensorMap) (key : List Char) (value : Tensor)
    (k : List Char) (v : Tensor) (hk : a.lookup k = some v) :
    (emplace a key value).1.lookup k = some v := by
  unfold emplace
  cases hfound : a.lookup key with
  | none =>
    show (a ++ [(key, value)]).lookup k = some v
    rw [lookup_append_single, hk]; rfl
  | some found => exact hk

/-- The second part of `gguf_load_quantized` never faults: the call is defined
whenever lines 106-144 are. -/
theorem gguf_load_quantized_defined (h : Host) (a : TensorMap) (tensor : gguf_tensor)
    (x : Except LoadError (List Char × Tensor × Tensor × Tensor))
    (ht : gguf_load_quantized_tensors h tensor = some x) :
    ∃ r, gguf_load_quantized h a tensor = some r := by
  unfold gguf_load_quantized
  rw [ht]
  cases x with
  | error e => exact ⟨_, rfl⟩
  | ok v =>
    obtain ⟨name, W, S, B⟩ := v
    dsimp only
    split
    · exact ⟨_, rfl⟩
    · split
      · exact ⟨_, rfl⟩
      · exact ⟨_, rfl⟩

/-- Lines 106-144 are defined on every tensor with a non-empty shape whose
buffer holds the blocks its type asks for (nothing is asked for when the
shape is rejected or the type has no extractor). -/
theorem gguf_load_quantized_tensors_defined (h : Host) (tensor : gguf_tensor)
    (init : List Nat) (last : Nat) (hshape : get_shape tensor = init ++ [last])
    (hdata : last % 32 = 0 →
      bytes_per_block tensor.type * (init.prod * (last / 32)) ≤ tensor.weights_data.length) :
    ∃ x, gguf_load_quantized_tensors h tensor = some x := by
  by_cases h32 : last % 32 = 0
  · by_cases htype : tensor.type = GGUF_TYPE_Q4_0 ∨ tensor.type = GGUF_TYPE_Q4_1 ∨
        tensor.type = GGUF_TYPE_Q8_0
    · obtain ⟨W, S, B, hrun, _⟩ :=
        gguf_load_quantized_tensors_ok h tensor init last hshape h32 htype (hdata h32)
      exact ⟨_, hrun⟩
    · rw [gguf_load_quantized_tensors_eq h tensor init last hshape h32,
        if_neg (fun hc => htype (Or.inl hc)), if_neg (fun hc => htype (Or.inr (Or.inl hc))),
        if_neg (fun hc => htype (Or.inr (Or.inr hc)))]
      exact ⟨_, rfl⟩
  · refine ⟨.error (.incompatible_last_dim tensor.name last), ?_⟩
    unfold gguf_load_quantized_tensors
    simp [hshape, back_append, OPENVINO_ASSERT, h32]

/-- C11. Insertion is not atomic across the three keys. For a valid tensor
named `p ++ ".weight"` and a map that does not hold that name: when the map
already holds `p ++ ".scales"` the call fails with the duplicate error and
leaves the old map extended with the weights entry only; when it holds
`p ++ ".biases"` but not `p ++ ".scales"` the call fails with the duplicate
error and leaves the old map extended with the weights and the scales
entries. -/
theorem gguf_load_quantized_partial_insert (h : Host) (a : TensorMap) (tensor : gguf_tensor)
    (p : List Char) (init : List Nat) (last : Nat)
    (hname : tensor.name = p ++ ".weight".toList) (hlen : tensor.name.length < 2 ^ 64)
    (hshape : get_shape tensor = init ++ [last]) (h32 : last % 32 = 0)
    (htype : tensor.type = GGUF_TYPE_Q4_0 ∨ tensor.type = GGUF_TYPE_Q4_1 ∨
      tensor.type = GGUF_TYPE_Q8_0)
    (hdata : bytes_per_block tensor.type * (init.prod * (last / 32))
      ≤ tensor.weights_data.length)
    (hw : a.lookup (p ++ ".weight".toList) = none) :
    ∃ W S B, gguf_load_quantized_tensors h tensor = some (.ok (tensor.name, W, S, B)) ∧
      (∀ found, a.lookup (p ++ ".scales".toList) = some found →
        gguf_load_quantized h a tensor
          = some ⟨a ++ [(p ++ ".weight".toList, W)], some (.duplicate_parameter found)⟩) ∧
      (∀ found, a.lookup (p ++ ".scales".toList) = none →
        a.lookup (p ++ ".biases".toList) = some found →
        gguf_load_quantized h a tensor
          = some ⟨a ++ [(p ++ ".weight".toList, W), (p ++ ".scales".toList, S)],
              some (.duplicate_parameter found)⟩) := by
  obtain ⟨W, S, B, hrun, _⟩ :=
    gguf_load_quantized_tensors_ok h tensor init last hshape h32 htype hdata
  obtain ⟨n1, n2, n3⟩ := suffix_ne p
  refine ⟨W, S, B, hrun, fun found hs => ?_, fun found hs hb => ?_⟩
  · have hs1 : (a ++ [(p ++ ".weight".toList, W)]).lookup (p ++ ".scales".toList)
        = some found := by
      rw [lookup_append_single, hs]; rfl
    unfold gguf_load_quantized
    rw [hrun]
    simp only [hname] at hlen ⊢
    rw [name_prefix_of_weight p hlen, emplace_of_fresh _ _ _ hw,
      emplace_of_found _ _ _ _ hs1]
    rfl
  · have hs1 : (a ++ [(p ++ ".weight".toList, W)]).lookup (p ++ ".scales".toList) = none := by
      rw [lookup_append_single, hs, if_neg n1]; rfl
    have hb1 : ((a ++ [(p ++ ".weight".toList, W)]) ++ [(p ++ ".scales".toList, S)]).lookup
        (p ++ ".biases".toList) = some found := by
      rw [lookup_append_single, lookup_append_single, hb]; rfl
    unfold gguf_load_quantized
    rw [hrun]
    simp only [hname] at hlen ⊢
    rw [name_prefix_of_weight p hlen, emplace_of_fresh _ _ _ hw, emplace_of_fresh _ _ _ hs1]
    simp only [OPENVINO_ASSERT, if_true]
    rw [emplace_of_found _ _ _ _ hb1]
    simp only [Bool.false_eq_true, if_false, List.append_assoc, List.singleton_append,
      List.cons_append, List.nil_append]

/-- The contract of C11 on the two-block Q4_0 tensor `blk.0.weight`: with
`blk.0.scales` already present only the weights are added; with only
`blk.0.biases` present the weights and the scales are added. -/
theorem gguf_load_quantized_partial_insert_witness :
    (∃ W, gguf_load_quantized sample_host [("blk.0.scales".toList, ⟨.f16, [1], [7]⟩)]
        sample_q4_0
      = some ⟨[("blk.0.scales".toList, ⟨.f16, [1], [7]⟩), ("blk.0.weight".toList, W)],
          some (.duplicate_parameter ⟨.f16, [1], [7]⟩)⟩) ∧
    (∃ W S, gguf_load_quantized sample_host [("blk.0.biases".toList, ⟨.f16, [1], [9]⟩)]
        sample_q4_0
      = some ⟨[("blk.0.biases".toList, ⟨.f16, [1], [9]⟩), ("blk.0.weight".toList, W),
          ("blk.0.scales".toList, S)], some (.duplicate_parameter ⟨.f16, [1], [9]⟩)⟩) := by
  obtain ⟨W, _, _, _, h1, _⟩ := gguf_load_quantized_partial_insert sample_host
    [("blk.0.scales".toList, ⟨.f16, [1], [7]⟩)] sample_q4_0 "blk.0".toList [] 64
    (by decide) (by decide) (by decide) (by decide) (by decide) (by decide) (by decide)
  obtain ⟨W', S', _, _, _, h2⟩ := gguf_load_quantized_partial_insert sample_host
    [("blk.0.biases".toList, ⟨.f16, [1], [9]⟩)] sample_q4_0 "blk.0".toList [] 64
    (by decide) (by decide) (by decide) (by decide) (by decide) (by decide) (by decide)
  exact ⟨⟨W, h1 _ (by decide)⟩, ⟨W', S', h2 _ (by decide) (by decide)⟩⟩

/-- Every entry of the map survives a call that returns, with its tensor. -/
theorem gguf_load_quantized_keeps_entries (h : Host) (a : TensorMap) (tensor : gguf_tensor)
    (r : LoadResult) (hr : gguf_load_quantized h a tensor = some r)
    (k : List Char) (v : Tensor) (hk : a.lookup k = some v) :
    r.map.lookup k = some v := by
  unfold gguf_load_quantized at hr
  cases ht : gguf_load_quantized_tensors h tensor with
  | none => rw [ht] at hr; cases hr
  | some x =>
    rw [ht] at hr
    cases x with
    | error e =>
      have := Option.some.inj hr
      rw [← this]; exact hk
    | ok val =>
      obtain ⟨name, W, S, B⟩ := val
      dsimp only at hr
      have m1 := emplace_lookup_mono a name W k v hk
      have m2 := emplace_lookup_mono _ (substr name 0
        ((name.length + 2 ^ 64 - ".weight".toList.length) % 2 ^ 64) ++ ".scales".toList)
        S k v m1
      have m3 := emplace_lookup_mono _ (substr name 0
        ((name.length + 2 ^ 64 - ".weight".toList.length) % 2 ^ 64) ++ ".biases".toList)
        B k v m2
      split at hr
      · have := Option.some.inj hr
        rw [← this]; exact m2
      · split at hr
        · have := Option.some.inj hr
          rw [← this]; exact m3
        · have := Option.some.inj hr
          rw [← this]; exact m3

/-- C12. `gguf_load_quantized` never overwrites an existing entry. Whenever
the call returns, normally or with an error, every key that was in the map is
still in the map and mapped to the same tensor; and the call does return on
every tensor with a non-empty shape whose buffer holds the blocks its type
asks for. -/
theorem gguf_load_quantized_never_overwrites (h : Host) (a : TensorMap)
    (tensor : gguf_tensor) :
    (∀ r, gguf_load_quantized h a tensor = some r →
      ∀ k v, a.lookup k = some v → r.map.lookup k = some v) ∧
    (∀ init last, get_shape tensor = init ++ [last] →
      (last % 32 = 0 → bytes_per_block tensor.type * (init.prod * (last / 32))
        ≤ tensor.weights_data.length) →
      ∃ r, gguf_load_quantized h a tensor = some r) := by
  refine ⟨fun r hr k v hk => gguf_load_quantized_keeps_entries h a tensor r hr k v hk,
    fun init last hshape hdata => ?_⟩
  obtain ⟨x, hx⟩ := gguf_load_quantized_tensors_defined h tensor init last hshape hdata
  exact gguf_load_quantized_defined h a tensor x hx

/-- The contract of C12 on a map that already holds `blk.0.weight` and
`blk.0.biases`: the call on the Q4_0 tensor `blk.0.weight` returns and both keys
still map to their old tensors. -/
theorem gguf_load_quantized_never_overwrites_witness :
    ∃ r, gguf_load_quantized sample_host
        [("blk.0.weight".toList, ⟨.f16, [1], [7]⟩), ("blk.0.biases".toList, ⟨.f16, [1], [9]⟩)]
        sample_q4_0 = some r ∧
      r.map.lookup "blk.0.weight".toList = some ⟨.f16, [1], [7]⟩ ∧
      r.map.lookup "blk.0.biases".toList = some ⟨.f16, [1], [9]⟩ := by
  obtain ⟨hkeep, hdef⟩ := gguf_load_quantized_never_overwrites sample_host
    [("blk.0.weight".toList, ⟨.f16, [1], [7]⟩), ("blk.0.biases".toList, ⟨.f16, [1], [9]⟩)]
    sample_q4_0
  obtain ⟨r, hr⟩ := hdef [] 64 (by decide) (fun _ => by decide)
  exact ⟨r, hr, hkeep r hr _ _ (by decide), hkeep r hr _ _ (by decide)⟩

/-! ## Two tensors with the same base name -/

theorem derived_base_of_le (name : List Char) (h7 : 7 ≤ name.length)
    (hlen : name.length < 2 ^ 64) : derived_base name = name.take (name.length - 7) := by
  unfold derived_base
  rw [weight_suffix_length]
  have e : (name.length + 2 ^ 64 - 7) % 2 ^ 64 = name.length - 7 := by omega
  rw [e]
  simp [substr]

theorem valid_tensor_ok (h : Host) (t : gguf_tensor) (hv : valid_tensor t) :
    ∃ W S B, gguf_load_quantized_tensors h t = some (.ok (t.name, W, S, B)) := by
  obtain ⟨htype, _, init, last, hshape, h32, hdata⟩ := hv
  obtain ⟨W, S, B, hrun, _⟩ :=
    gguf_load_quantized_tensors_ok h t init last hshape h32 htype hdata
  exact ⟨W, S, B, hrun⟩

/-- The insertions of lines 146-155 when the three keys are pairwise distinct
and absent from the map. -/
theorem gguf_load_quantized_inserts_distinct (h : Host) (a : TensorMap) (tensor : gguf_tensor)
    (W S B : Tensor)
    (hrun : gguf_load_quantized_tensors h tensor = some (.ok (tensor.name, W, S, B)))
    (n1 : derived_base tensor.name ++ ".scales".toList ≠ tensor.name)
    (n2 : derived_base tensor.name ++ ".biases".toList ≠ tensor.name)
    (hw : a.lookup tensor.name = none)
    (hs : a.lookup (derived_base tensor.name ++ ".scales".toList) = none)
    (hb : a.lookup (derived_base tensor.name ++ ".biases".toList) = none) :
    gguf_load_quantized h a tensor
      = some ⟨a ++ [(tensor.name, W), (derived_base tensor.name ++ ".scales".toList, S),
          (derived_base tensor.name ++ ".biases".toList, B)], none⟩ := by
  have n3 := (suffix_ne (derived_base tensor.name)).2.2
  have hs1 : (a ++ [(tensor.name, W)]).lookup (derived_base tensor.name ++ ".scales".toList)
      = none := by
    rw [lookup_append_single, hs, if_neg n1]; rfl
  have hb1 : ((a ++ [(tensor.name, W)]) ++
      [(derived_base tensor.name ++ ".scales".toList, S)]).lookup
      (derived_base tensor.name ++ ".biases".toList) = none := by
    rw [lookup_append_single, lookup_append_single, hb, if_neg n2, if_neg n3]; rfl
  unfold gguf_load_quantized
  rw [hrun]
  dsimp only
  rw [show substr tensor.name 0
    ((tensor.name.length + 2 ^ 64 - ".weight".toList.length) % 2 ^ 64)
    = derived_base tensor.name from rfl]
  rw [emplace_of_fresh _ _ _ hw, emplace_of_fresh _ _ _ hs1]
  simp only [OPENVINO_ASSERT, if_true]
  rw [emplace_of_fresh _ _ _ hb1]
  simp only [OPENVINO_ASSERT, if_true, List.append_assoc, List.singleton_append,
    List.cons_append, List.nil_append]

/-- A call on a map that, once the weights are in, already holds the derived
`.scales` key ends with the duplicate error. -/
theorem gguf_load_quantized_scales_collision (h : Host) (a : TensorMap) (tensor : gguf_tensor)
    (W S B found : Tensor)
    (hrun : gguf_load_quantized_tensors h tensor = some (.ok (tensor.name, W, S, B)))
    (hs : (emplace a tensor.name W).1.lookup (derived_base tensor.name ++ ".scales".toList)
      = some found) :
    gguf_load_quantized h a tensor
      = some ⟨(emplace a tensor.name W).1, some (.duplicate_parameter found)⟩ := by
  unfold gguf_load_quantized
  rw [hrun]
  dsimp only
  rw [show substr tensor.name 0
    ((tensor.name.length + 2 ^ 64 - ".weight".toList.length) % 2 ^ 64)
    = derived_base tensor.name from rfl]
  rw [emplace_of_found _ _ _ _ hs]
  rfl

/-- C13, as stated, fails. The Q4_0 tensor `blk.0.scales` (a valid tensor
whose name has 12 characters) registered twice into an empty map: already the
first call ends with the duplicate error, because its derived key
`blk.0.scales` is its own name, which the call has just inserted. -/
theorem same_base_first_call_can_fail :
    ¬ (∀ (h : Host) (a : TensorMap) (t1 t2 : gguf_tensor),
        valid_tensor t1 → valid_tensor t2 →
        7 ≤ t1.name.length → 7 ≤ t2.name.length →
        t1.name.take (t1.name.length - 7) = t2.name.take (t2.name.length - 7) →
        a.lookup t1.name = none →
        a.lookup (t1.name.take (t1.name.length - 7) ++ ".scales".toList) = none →
        a.lookup (t1.name.take (t1.name.length - 7) ++ ".biases".toList) = none →
        ∃ m, gguf_load_quantized h a t1 = some ⟨m, none⟩ ∧
          ∃ m' found, gguf_load_quantized h m t2
            = some ⟨m', some (.duplicate_parameter found)⟩) := by
  intro hclaim
  have hv : valid_tensor { sample_q4_0 with name := "blk.0.scales".toList } :=
    ⟨Or.inl rfl, by decide, [], 64, rfl, by decide, by decide⟩
  obtain ⟨m, hm, _⟩ := hclaim sample_host []
    { sample_q4_0 with name := "blk.0.scales".toList }
    { sample_q4_0 with name := "blk.0.scales".toList }
    hv hv (by decide) (by decide) rfl (by decide) (by decide) (by decide)
  have e : (gguf_load_quantized sample_host []
      { sample_q4_0 with name := "blk.0.scales".toList }).map (·.error)
      = some (some (.duplicate_parameter ⟨.u32, [8],
          [16, 50, 84, 118, 152, 186, 220, 254, 17, 17, 17, 17, 17, 17, 17, 17,
           16, 50, 84, 118, 152, 186, 220, 254, 255, 255, 255, 255, 255, 255, 255, 255]⟩)) := by
    decide
  rw [hm] at e
  cases e

/-- C13, amended. Two valid tensors whose names have at least 7 characters
and are equal once their last 7 characters are removed, the first name not
being its own derived `.scales` or `.biases` key (every name ending in
`.weight` is such a name), and a map holding none of the first tensor's three
keys: the first call succeeds and the second call, on the resulting map, fails
with the duplicate error. -/
theorem same_base_second_call_fails (h : Host) (a : TensorMap) (t1 t2 : gguf_tensor)
    (hv1 : valid_tensor t1) (hv2 : valid_tensor t2)
    (h71 : 7 ≤ t1.name.length) (h72 : 7 ≤ t2.name.length)
    (hbase : t1.name.take (t1.name.length - 7) = t2.name.take (t2.name.length - 7))
    (n1 : t1.name ≠ t1.name.take (t1.name.length - 7) ++ ".scales".toList)
    (n2 : t1.name ≠ t1.name.take (t1.name.length - 7) ++ ".biases".toList)
    (hw : a.lookup t1.name = none)
    (hs : a.lookup (t1.name.take (t1.name.length - 7) ++ ".scales".toList) = none)
    (hb : a.lookup (t1.name.take (t1.name.length - 7) ++ ".biases".toList) = none) :
    ∃ m, gguf_load_quantized h a t1 = some ⟨m, none⟩ ∧
      ∃ m' found, gguf_load_quantized h m t2
        = some ⟨m', some (.duplicate_parameter found)⟩ := by
  have hb1 := derived_base_of_le t1.name h71 hv1.2.1
  have hb2 := derived_base_of_le t2.name h72 hv2.2.1
  obtain ⟨W, S, B, hrun1⟩ := valid_tensor_ok h t1 hv1
  obtain ⟨W2, S2, B2, hrun2⟩ := valid_tensor_ok h t2 hv2
  rw [← hb1] at n1 n2 hs hb hbase
  have hfirst := gguf_load_quantized_inserts_distinct h a t1 W S B hrun1 (Ne.symm n1)
    (Ne.symm n2) hw hs hb
  refine ⟨_, hfirst, ?_⟩
  have hfound : (a ++ [(t1.name, W), (derived_base t1.name ++ ".scales".toList, S),
      (derived_base t1.name ++ ".biases".toList, B)]).lookup
      (derived_base t2.name ++ ".scales".toList) = some S := by
    have e : a ++ [(t1.name, W), (derived_base t1.name ++ ".scales".toList, S),
        (derived_base t1.name ++ ".biases".toList, B)]
        = ((a ++ [(t1.name, W)]) ++ [(derived_base t1.name ++ ".scales".toList, S)])
          ++ [(derived_base t1.name ++ ".biases".toList, B)] := by simp
    rw [e, hb2, ← hbase, lookup_append_single, lookup_append_single, lookup_append_single,
      hs, if_neg (Ne.symm n1), if_pos rfl]
    rfl
  exact ⟨_, S, gguf_load_quantized_scales_collision h _ t2 W2 S2 B2 S hrun2
    (emplace_lookup_mono _ _ _ _ _ hfound)⟩

/-- The amended C13 on the Q4_0 tensor `blk.0.weight` registered twice into an
empty map. -/
theorem same_base_second_call_fails_witness :
    ∃ m, gguf_load_quantized sample_host [] sample_q4_0 = some ⟨m, none⟩ ∧
      ∃ m' found, gguf_load_quantized sample_host m sample_q4_0
        = some ⟨m', some (.duplicate_parameter found)⟩ :=
  same_base_second_call_fails sample_host [] sample_q4_0 sample_q4_0
    ⟨Or.inl rfl, by decide, [], 64, rfl, by decide, by decide⟩
    ⟨Or.inl rfl, by decide, [], 64, rfl, by decide, by decide⟩
    (by decide) (by decide) rfl (by decide) (by decide) (by decide) (by decide) (by decide)

/-! ## The 8-bit code transform -/

set_option maxRecDepth 100000 in
theorem q8_code_cases : ∀ b, b < 256 →
    q8_code b = (if b < 128 then b + 128 else b - 128) ∧ q8_code b = b ^^^ 0x80 := by
  decide

/-- The weight bytes written by `extract_q8_0_data` are the codes `q8_code` of
the input code bytes. -/
theorem extract_q8_0_data_stores_code (h : Host) (tensor : gguf_tensor) (W S B : Tensor)
    (hdata : 34 * S.get_size ≤ tensor.weights_data.length)
    (hW : 32 * S.get_size ≤ W.data.length) (hS : S.get_size ≤ S.data.length)
    (hB : S.get_size ≤ B.data.length) :
    ∃ W' S' B', extract_q8_0_data h tensor W S B = some (W', S', B') ∧
      ∀ i j, i < S.get_size → j < 32 →
        W'.data[32 * i + j]? = some (q8_code (tensor.weights_data.getD (34 * i + 2 + j) 0)) := by
  obtain ⟨w, s, b, hrun, _, _, _, hw, _, _⟩ :=
    extract_q8_0_data_spec h tensor W S B hdata hW hS hB
  refine ⟨_, _, _, hrun, fun i j hi hj => ?_⟩
  show w[32 * i + j]? = _
  have hq : (32 * i + j) / 32 = i := by omega
  have hr : (32 * i + j) % 32 = j := by omega
  rw [hw, if_pos (by omega)]
  unfold q8_weight_byte q8_code
  rw [hq, hr, Nat.add_assoc]

/-- C14. The Q8_0 code transform turns a signed byte into its offset-128
code. For every byte `b`, read as the two's-complement value `s`, the stored
code `b XOR 0x80` equals `s + 128`, so `code - 128` gives `s` back, and the
codes of two bytes compare as their signed values do; and these codes are
what `extract_q8_0_data` writes for every input code byte. -/
theorem q8_0_code_is_offset_128 :
    (∀ b, b < 256 →
      q8_code b = b ^^^ 0x80 ∧
      (q8_code b : Int) = int8_of_byte b + 128 ∧
      (q8_code b : Int) - 128 = int8_of_byte b ∧
      ∀ b', b' < 256 → (int8_of_byte b ≤ int8_of_byte b' ↔ q8_code b ≤ q8_code b')) ∧
    (∀ (h : Host) (tensor : gguf_tensor) (W S B : Tensor),
      34 * S.get_size ≤ tensor.weights_data.length → 32 * S.get_size ≤ W.data.length →
      S.get_size ≤ S.data.length → S.get_size ≤ B.data.length →
      ∃ W' S' B', extract_q8_0_data h tensor W S B = some (W', S', B') ∧
        ∀ i j, i < S.get_size → j < 32 →
          W'.data[32 * i + j]? =
            some (q8_code (tensor.weights_data.getD (34 * i + 2 + j) 0))) := by
  have key : ∀ b, b < 256 → (q8_code b : Int) = int8_of_byte b + 128 := by
    intro b hb
    rw [(q8_code_cases b hb).1]
    unfold int8_of_byte
    by_cases h128 : b < 128
    · rw [if_pos h128, if_pos h128]; omega
    · rw [if_neg h128, if_neg h128]; omega
  refine ⟨fun b hb => ⟨(q8_code_cases b hb).2, key b hb, ?_, fun b' hb' => ?_⟩,
    fun h tensor W S B hdata hW hS hB =>
      extract_q8_0_data_stores_code h tensor W S B hdata hW hS hB⟩
  · have := key b hb
    omega
  · have k1 := key b hb
    have k2 := key b' hb'
    omega

/-- The contract of C14 on the byte `0xFF` (the signed value `-1`), whose code
is `127`, and on the two-block sample input. -/
theorem q8_0_code_is_offset_128_witness :
    (q8_code 0xFF : Int) = int8_of_byte 0xFF + 128 ∧
    (∃ W' S' B', extract_q8_0_data sample_host sample_q8_0
        (Tensor.alloc sample_host 0 .u32 [16]) (Tensor.alloc sample_host 1 .f16 [2])
        (Tensor.alloc sample_host 2 .f16 [2]) = some (W', S', B') ∧
      W'.data[32 * 1 + 31]? = some (q8_code 0xFF)) := by
  obtain ⟨hb, hrun⟩ := q8_0_code_is_offset_128
  obtain ⟨W', S', B', hr, hcodes⟩ := hrun sample_host sample_q8_0
    (Tensor.alloc sample_host 0 .u32 [16]) (Tensor.alloc sample_host 1 .f16 [2])
    (Tensor.alloc sample_host 2 .f16 [2]) (by decide) (by decide) (by decide) (by decide)
  exact ⟨(hb 0xFF (by decide)).2.1, W', S', B', hr, hcodes 1 31 (by decide) (by decide)⟩

/-- C16. The Q8_0 code transform is an involution: applying it twice to a
byte gives the byte back; the transform is the one `extract_q8_0_data` applies
to every input code byte. -/
theorem q8_0_code_involution :
    (∀ b, b < 256 → q8_code (q8_code b) = b) ∧
    (∀ (h : Host) (tensor : gguf_tensor) (W S B : Tensor),
      34 * S.get_size ≤ tensor.weights_data.length → 32 * S.get_size ≤ W.data.length →
      S.get_size ≤ S.data.length → S.get_size ≤ B.data.length →
      ∃ W' S' B', extract_q8_0_data h tensor W S B = some (W', S', B') ∧
        ∀ i j, i < S.get_size → j < 32 →
          W'.data[32 * i + j]? =
            some (q8_code (tensor.weights_data.getD (34 * i + 2 + j) 0))) := by
  refine ⟨fun b hb => ?_, fun h tensor W S B hdata hW hS hB =>
    extract_q8_0_data_stores_code h tensor W S B hdata hW hS hB⟩
  have h1 := (q8_code_cases b hb).1
  have hlt : q8_code b < 256 := by
    rw [h1]; split <;> omega
  have h2 := (q8_code_cases (q8_code b) hlt).1
  rw [h2, h1]
  by_cases h128 : b < 128
  · rw [if_pos h128, if_neg (by omega)]; omega
  · rw [if_neg h128, if_pos (by omega)]; omega

/-- The contract of C16 on the byte `0x9C`, and on the two-block sample input. -/
theorem q8_0_code_involution_witness :
    q8_code (q8_code 0x9C) = 0x9C ∧
    (∃ W' S' B', extract_q8_0_data sample_host sample_q8_0
        (Tensor.alloc sample_host 0 .u32 [16]) (Tensor.alloc sample_host 1 .f16 [2])
        (Tensor.alloc sample_host 2 .f16 [2]) = some (W', S', B') ∧
      W'.data[32 * 0 + 3]? = some (q8_code 3)) := by
  obtain ⟨hb, hrun⟩ := q8_0_code_involution
  obtain ⟨W', S', B', hr, hcodes⟩ := hrun sample_host sample_q8_0
    (Tensor.alloc sample_host 0 .u32 [16]) (Tensor.alloc sample_host 1 .f16 [2])
    (Tensor.alloc sample_host 2 .f16 [2]) (by decide) (by decide) (by decide) (by decide)
  exact ⟨hb 0x9C (by decide), W', S', B', hr, hcodes 0 3 (by decide) (by decide)⟩

/-! ## What the errors carry -/

/-- Evaluation for C17: a map that holds one tensor under both `blk.0.scales` and
`blk.1.scales`. Loading `blk.0.weight` and loading `blk.1.weight` fail with the
same duplicate error, which carries the tensor found in the map (line 149
streams its data pointer) and neither the colliding key nor the name of the
tensor being loaded. -/
theorem duplicate_error_carries_no_key :
    (gguf_load_quantized sample_host
        [("blk.0.scales".toList, ⟨.f16, [1], [7]⟩), ("blk.1.scales".toList, ⟨.f16, [1], [7]⟩)]
        sample_q4_0).map (·.error)
      = some (some (.duplicate_parameter ⟨.f16, [1], [7]⟩)) ∧
    (gguf_load_quantized sample_host
        [("blk.0.scales".toList, ⟨.f16, [1], [7]⟩), ("blk.1.scales".toList, ⟨.f16, [1], [7]⟩)]
        { sample_q4_0 with name := "blk.1.weight".toList }).map (·.error)
      = some (some (.duplicate_parameter ⟨.f16, [1], [7]⟩)) := by
  decide

/-! ## The literal behaviour of the Q4_1 extractor -/

theorem q4_weight_byte_congr (data data' : Buffer) (idx : Nat)
    (hsame : ∀ k, k % 20 < 18 → data'.getD k 0 = data.getD k 0) :
    q4_weight_byte data' 20 idx = q4_weight_byte data 20 idx := by
  unfold q4_weight_byte
  have hr : idx % 16 < 16 := Nat.mod_lt _ (by decide)
  rw [hsame (20 * (idx / 16) + (2 + 2 * (idx % 16 - 8))) (by omega),
    hsame (20 * (idx / 16) + (2 + 2 * (idx % 16 - 8) + 1)) (by omega)]
  by_cases h8 : idx % 16 < 8
  · rw [if_pos h8, if_pos h8, hsame _ (by omega), hsame _ (by omega)]
  · rw [if_neg h8, if_neg h8]

/-- C18. Literal Q4_1 behaviour. On an input of at least `n` blocks of 20
bytes `extract_q4_1_data` returns, the 16 weight bytes of block `i` are what
`unpack_32_4` yields on block bytes `[2, 18)`, so the two bias bytes are
consumed as the first two code bytes, and the bytes at block offsets 18 and 19
influence nothing: an input of the same length that agrees everywhere else
gives identical weights, scales and biases. -/
theorem extract_q4_1_data_literal (tensor : gguf_tensor) (W S B : Tensor)
    (hdata : 20 * S.get_size ≤ tensor.weights_data.length)
    (hW : 16 * S.get_size ≤ W.data.length) (hS : S.get_size ≤ S.data.length)
    (hB : S.get_size ≤ B.data.length) :
    ∃ W' S' B', extract_q4_1_data tensor W S B = some (W', S', B') ∧
      (∀ i, i < S.get_size → ∀ (s0 s1 : Nat) (dst : Buffer), dst.length = 16 →
        unpack_32_4 (s0 :: s1 :: (tensor.weights_data.drop (20 * i + 2)).take 16) 0 dst 0
          = some ((W'.data.drop (16 * i)).take 16)) ∧
      (∀ tensor' : gguf_tensor,
        tensor'.weights_data.length = tensor.weights_data.length →
        (∀ k, k % 20 < 18 → tensor'.weights_data.getD k 0 = tensor.weights_data.getD k 0) →
        extract_q4_1_data tensor' W S B = some (W', S', B')) := by
  obtain ⟨w, s, b, hrun, hlw, hls, hlb, hw, hs, hb⟩ :=
    extract_q4_1_data_spec tensor W S B hdata hW hS hB
  refine ⟨_, _, _, hrun, fun i hi s0 s1 dst hdst => ?_, fun tensor' hlen hsame => ?_⟩
  · exact q4_window_eq_unpack tensor.weights_data 20 S.get_size w W.data hw i hi (by omega)
      s0 s1 dst hdst
  · obtain ⟨w', s', b', hrun', _, _, _, hw', hs', hb'⟩ :=
      extract_q4_1_data_spec tensor' W S B (by omega) hW hS hB
    have ew : w' = w := by
      apply List.ext_getElem?
      intro idx
      rw [hw', hw, q4_weight_byte_congr _ _ idx hsame]
    have es : s' = s := by
      apply List.ext_getElem?
      intro idx
      rw [hs', hs]
      unfold u16_at
      rw [hsame (20 * idx) (by omega), hsame (20 * idx + 1) (by omega)]
    have eb : b' = b := by
      apply List.ext_getElem?
      intro idx
      rw [hb', hb]
      unfold u16_at
      rw [hsame (20 * idx + 2) (by omega), hsame (20 * idx + 2 + 1) (by omega)]
    rw [hrun', ew, es, eb]

/-- The contract of C18 on the one-block sample: its weights are the unpacking
of block bytes `[2, 18)`, and overwriting block bytes 18 and 19 changes
nothing. -/
theorem extract_q4_1_data_literal_witness :
    ∃ W' S' B', extract_q4_1_data sample_q4_1 (Tensor.alloc sample_host 0 .u32 [4])
        (Tensor.alloc sample_host 1 .f16 [1]) (Tensor.alloc sample_host 2 .f16 [1])
        = some (W', S', B') ∧
      unpack_32_4 (0 :: 0 :: (sample_q4_1.weights_data.drop (20 * 0 + 2)).take 16) 0
        (List.replicate 16 0) 0 = some ((W'.data.drop (16 * 0)).take 16) ∧
      extract_q4_1_data
        { sample_q4_1 with weights_data := [0x00, 0x3C, 0xFF, 0xFF] ++ List.replicate 14 0
            ++ [0x12, 0x34] }
        (Tensor.alloc sample_host 0 .u32 [4])
        (Tensor.alloc sample_host 1 .f16 [1]) (Tensor.alloc sample_host 2 .f16 [1])
        = some (W', S', B') := by
  obtain ⟨W', S', B', hrun, hwin, hsame⟩ := extract_q4_1_data_literal sample_q4_1
    (Tensor.alloc sample_host 0 .u32 [4]) (Tensor.alloc sample_host 1 .f16 [1])
    (Tensor.alloc sample_host 2 .f16 [1]) (by decide) (by decide) (by decide) (by decide)
  refine ⟨W', S', B', hrun, hwin 0 (by decide) 0 0 _ (by decide), hsame _ (by decide) ?_⟩
  intro k hk
  by_cases h20 : k < 20
  · interval_cases k <;> first | rfl | (exfalso; revert hk; decide)
  · have e1 : ([0x00, 0x3C, 0xFF, 0xFF] ++ List.replicate 14 0 ++ [0x12, 0x34] : List Nat).getD
        k 0 = 0 := by
      rw [List.getD_eq_getElem?_getD, List.getElem?_eq_none (by simp; omega)]; rfl
    have e2 : sample_q4_1.weights_data.getD k 0 = 0 := by
      rw [List.getD_eq_getElem?_getD, List.getElem?_eq_none (by simp [sample_q4_1]; omega)]
      rfl
    exact e1.trans e2.symm

/-! ## The outputs in closed form -/

theorem eq_map_range (w : Buffer) (L : Nat) (f : Nat → Nat) (W0 : Buffer)
    (hl : w.length = L)
    (hw : ∀ idx, w[idx]? = if idx < L then some (f idx) else W0[idx]?) :
    w = (List.range L).map f := by
  apply List.ext_getElem?
  intro idx
  rw [List.getElem?_map]
  by_cases hi : idx < L
  · rw [hw, if_pos hi, List.getElem?_range hi]; rfl
  · rw [List.getElem?_eq_none (by omega), List.getElem?_eq_none (by simp; omega)]; rfl

/-- Lines 106-144 on a valid tensor of a supported type, in closed form: every
cell of the three outputs is a function of the input bytes (and of the host's
half-float product), none is left as allocated. -/
theorem gguf_load_quantized_tensors_closed (h : Host) (tensor : gguf_tensor)
    (init : List Nat) (last : Nat) (hshape : get_shape tensor = init ++ [last])
    (h32 : last % 32 = 0)
    (htype : tensor.type = GGUF_TYPE_Q4_0 ∨ tensor.type = GGUF_TYPE_Q4_1 ∨
      tensor.type = GGUF_TYPE_Q8_0)
    (hdata : bytes_per_block tensor.type * (init.prod * (last / 32))
      ≤ tensor.weights_data.length) :
    gguf_load_quantized_tensors h tensor = some (.ok (tensor.name,
      ⟨.u32, init ++ [last / (if tensor.type = GGUF_TYPE_Q8_0 then 4 else 8)],
        (List.range (weight_bytes_per_block tensor.type * (init.prod * (last / 32)))).map
          (weight_byte tensor.type tensor.weights_data)⟩,
      ⟨.f16, init ++ [last / 32],
        (List.range (init.prod * (last / 32))).map
          (scale_bits tensor.type tensor.weights_data)⟩,
      ⟨.f16, init ++ [last / 32],
        (List.range (init.prod * (last / 32))).map
          (bias_bits h tensor.type tensor.weights_data)⟩)) := by
  obtain ⟨hn, hs, hb, hw8, hw4⟩ := alloc_sizes h init last h32
  rw [gguf_load_quantized_tensors_eq h tensor init last hshape h32]
  rcases htype with ht | ht | ht
  · rw [ht] at hdata ⊢
    obtain ⟨w, s, b, hrun, lw, ls, lb, cw, cs, cb⟩ := extract_q4_0_data_spec h tensor
      (Tensor.alloc h 0 .u32 (init ++ [last / 8])) (Tensor.alloc h 1 .f16 (init ++ [last / 32]))
      (Tensor.alloc h 2 .f16 (init ++ [last / 32]))
      (by rw [hn]; exact hdata) (by rw [hn, hw8]) (by rw [hn, hs]) (by rw [hn, hb])
    rw [hn] at cw cs cb
    rw [if_pos rfl, hrun,
      eq_map_range w _ _ _ (by rw [lw, hw8]) cw, eq_map_range s _ _ _ (by rw [ls, hs]) cs,
      eq_map_range b _ _ _ (by rw [lb, hb]) cb]
    rfl
  · rw [ht] at hdata ⊢
    obtain ⟨w, s, b, hrun, lw, ls, lb, cw, cs, cb⟩ := extract_q4_1_data_spec tensor
      (Tensor.alloc h 0 .u32 (init ++ [last / 8])) (Tensor.alloc h 1 .f16 (init ++ [last / 32]))
      (Tensor.alloc h 2 .f16 (init ++ [last / 32]))
      (by rw [hn]; exact hdata) (by rw [hn, hw8]) (by rw [hn, hs]) (by rw [hn, hb])
    rw [hn] at cw cs cb
    rw [if_neg (by decide), if_pos rfl, hrun,
      eq_map_range w _ _ _ (by rw [lw, hw8]) cw, eq_map_range s _ _ _ (by rw [ls, hs]) cs,
      eq_map_range b _ _ _ (by rw [lb, hb]) cb]
    rfl
  · rw [ht] at hdata ⊢
    obtain ⟨w, s, b, hrun, lw, ls, lb, cw, cs, cb⟩ := extract_q8_0_data_spec h tensor
      (Tensor.alloc h 0 .u32 (init ++ [last / 4])) (Tensor.alloc h 1 .f16 (init ++ [last / 32]))
      (Tensor.alloc h 2 .f16 (init ++ [last / 32]))
      (by rw [hn]; exact hdata) (by rw [hn, hw4]) (by rw [hn, hs]) (by rw [hn, hb])
    rw [hn] at cw cs cb
    rw [if_neg (by decide), if_neg (by decide), if_pos rfl, hrun,
      eq_map_range w _ _ _ (by rw [lw, hw4]) cw, eq_map_range s _ _ _ (by rw [ls, hs]) cs,
      eq_map_range b _ _ _ (by rw [lb, hb]) cb]
    rfl

theorem getD_take (l : Buffer) (m k : Nat) (hk : k < m) :
    (l.take m).getD k 0 = l.getD k 0 := by
  rw [List.getD_eq_getElem?_getD, List.getD_eq_getElem?_getD, List.getElem?_take_of_lt hk]

/-- The cells of the closed form read input bytes below `n` blocks only. -/
theorem cells_congr (h : Host) (t : gguf_tensor_type) (data data' : Buffer) (n : Nat)
    (htype : t = GGUF_TYPE_Q4_0 ∨ t = GGUF_TYPE_Q4_1 ∨ t = GGUF_TYPE_Q8_0)
    (hsame : ∀ k, k < bytes_per_block t * n → data'.getD k 0 = data.getD k 0) :
    (∀ idx, idx < weight_bytes_per_block t * n →
      weight_byte t data' idx = weight_byte t data idx) ∧
    (∀ i, i < n → scale_bits t data' i = scale_bits t data i) ∧
    (∀ i, i < n → bias_bits h t data' i = bias_bits h t data i) := by
  rcases htype with ht | ht | ht <;> subst ht
  · refine ⟨fun idx hidx => ?_, fun i hi => ?_, fun i hi => ?_⟩
    · have hb : weight_bytes_per_block GGUF_TYPE_Q4_0 = 16 := rfl
      have hs : ∀ k, k < 18 * n → data'.getD k 0 = data.getD k 0 := hsame
      rw [hb] at hidx
      show q4_weight_byte data' 18 idx = q4_weight_byte data 18 idx
      unfold q4_weight_byte
      rw [hs (18 * (idx / 16) + (2 + 2 * (idx % 16 - 8))) (by omega),
        hs (18 * (idx / 16) + (2 + 2 * (idx % 16 - 8) + 1)) (by omega)]
      by_cases h8 : idx % 16 < 8
      · rw [if_pos h8, if_pos h8, hs _ (by omega), hs _ (by omega)]
      · rw [if_neg h8, if_neg h8]
    · have hs : ∀ k, k < 18 * n → data'.getD k 0 = data.getD k 0 := hsame
      show u16_at data' (18 * i) = u16_at data (18 * i)
      unfold u16_at
      rw [hs _ (by omega), hs _ (by omega)]
    · have hs : ∀ k, k < 18 * n → data'.getD k 0 = data.getD k 0 := hsame
      show h.f16_scale (-8) (u16_at data' (18 * i)) = h.f16_scale (-8) (u16_at data (18 * i))
      unfold u16_at
      rw [hs _ (by omega), hs _ (by omega)]
  · refine ⟨fun idx hidx => ?_, fun i hi => ?_, fun i hi => ?_⟩
    · have hb : weight_bytes_per_block GGUF_TYPE_Q4_1 = 16 := rfl
      have hs : ∀ k, k < 20 * n → data'.getD k 0 = data.getD k 0 := hsame
      rw [hb] at hidx
      show q4_weight_byte data' 20 idx = q4_weight_byte data 20 idx
      unfold q4_weight_byte
      rw [hs (20 * (idx / 16) + (2 + 2 * (idx % 16 - 8))) (by omega),
        hs (20 * (idx / 16) + (2 + 2 * (idx % 16 - 8) + 1)) (by omega)]
      by_cases h8 : idx % 16 < 8
      · rw [if_pos h8, if_pos h8, hs _ (by omega), hs _ (by omega)]
      · rw [if_neg h8, if_neg h8]
    · have hs : ∀ k, k < 20 * n → data'.getD k 0 = data.getD k 0 := hsame
      show u16_at data' (20 * i) = u16_at data (20 * i)
      unfold u16_at
      rw [hs _ (by omega), hs _ (by omega)]
    · have hs : ∀ k, k < 20 * n → data'.getD k 0 = data.getD k 0 := hsame
      show u16_at data' (20 * i + 2) = u16_at data (20 * i + 2)
      unfold u16_at
      rw [hs _ (by omega), hs _ (by omega)]
  · refine ⟨fun idx hidx => ?_, fun i hi => ?_, fun i hi => ?_⟩
    · have hb : weight_bytes_per_block GGUF_TYPE_Q8_0 = 32 := rfl
      have hs : ∀ k, k < 34 * n → data'.getD k 0 = data.getD k 0 := hsame
      rw [hb] at hidx
      show q8_weight_byte data' idx = q8_weight_byte data idx
      unfold q8_weight_byte
      rw [hs _ (by omega)]
    · have hs : ∀ k, k < 34 * n → data'.getD k 0 = data.getD k 0 := hsame
      show u16_at data' (34 * i) = u16_at data (34 * i)
      unfold u16_at
      rw [hs _ (by omega), hs _ (by omega)]
    · have hs : ∀ k, k < 34 * n → data'.getD k 0 = data.getD k 0 := hsame
      show h.f16_scale (-128) (u16_at data' (34 * i))
        = h.f16_scale (-128) (u16_at data (34 * i))
      unfold u16_at
      rw [hs _ (by omega), hs _ (by omega)]

/-- C19. The allocated buffers match what the extractors touch. For a tensor
of a supported type with shape `init ++ [last]`, `last` a multiple of 32, and
`n = init.prod * (last / 32)` blocks in its buffer, lines 106-144 return (so no
read or write leaves its buffer); the scales and biases hold `n` elements; the
weights buffer has 4 bytes per 32-bit word and exactly `16 n` (Q4_0, Q4_1) or
`32 n` (Q8_0) bytes; the outputs are the same whatever the allocated storage
contained, so no cell is left unset; and the outputs are the same when the
input is cut down to its first `n` blocks, so no byte of index `n * block size`
or more is read. -/
theorem allocated_buffers_match (h : Host) (tensor : gguf_tensor)
    (init : List Nat) (last : Nat) (hshape : get_shape tensor = init ++ [last])
    (h32 : last % 32 = 0)
    (htype : tensor.type = GGUF_TYPE_Q4_0 ∨ tensor.type = GGUF_TYPE_Q4_1 ∨
      tensor.type = GGUF_TYPE_Q8_0)
    (hdata : bytes_per_block tensor.type * (init.prod * (last / 32))
      ≤ tensor.weights_data.length) :
    ∃ W S B, gguf_load_quantized_tensors h tensor = some (.ok (tensor.name, W, S, B)) ∧
      S.get_size = init.prod * (last / 32) ∧
      S.data.length = S.get_size ∧ B.data.length = S.get_size ∧
      W.data.length = 4 * W.get_size ∧
      W.data.length = weight_bytes_per_block tensor.type * S.get_size ∧
      (∀ h' : Host, h'.f16_scale = h.f16_scale →
        gguf_load_quantized_tensors h' tensor = some (.ok (tensor.name, W, S, B))) ∧
      (∀ tensor' : gguf_tensor, tensor'.name = tensor.name → tensor'.type = tensor.type →
        get_shape tensor' = get_shape tensor →
        tensor'.weights_data
          = tensor.weights_data.take (bytes_per_block tensor.type * S.get_size) →
        gguf_load_quantized_tensors h tensor' = some (.ok (tensor.name, W, S, B))) := by
  have hclosed := gguf_load_quantized_tensors_closed h tensor init last hshape h32 htype hdata
  obtain ⟨m, rfl⟩ : ∃ m, last = 32 * m := ⟨last / 32, by omega⟩
  have e32 : 32 * m / 32 = m := by omega
  refine ⟨_, _, _, hclosed, ?_, ?_, ?_, ?_, ?_, fun h' hh' => ?_,
    fun tensor' hname' htype' hshape' hdata' => ?_⟩
  · simp [Tensor.get_size]
  · simp [Tensor.get_size]
  · simp [Tensor.get_size]
  · simp only [Tensor.get_size, List.length_map, List.length_range, prod_append_single, e32]
    rcases htype with ht | ht | ht <;> rw [ht]
    · have e : 32 * m / (if GGUF_TYPE_Q4_0 = GGUF_TYPE_Q8_0 then 4 else 8) = 4 * m := by
        rw [if_neg (by decide)]; omega
      rw [e, show weight_bytes_per_block GGUF_TYPE_Q4_0 = 16 from rfl]; ring
    · have e : 32 * m / (if GGUF_TYPE_Q4_1 = GGUF_TYPE_Q8_0 then 4 else 8) = 4 * m := by
        rw [if_neg (by decide)]; omega
      rw [e, show weight_bytes_per_block GGUF_TYPE_Q4_1 = 16 from rfl]; ring
    · have e : 32 * m / (if GGUF_TYPE_Q8_0 = GGUF_TYPE_Q8_0 then 4 else 8) = 8 * m := by
        rw [if_pos rfl]; omega
      rw [e, show weight_bytes_per_block GGUF_TYPE_Q8_0 = 32 from rfl]; ring
  · simp [Tensor.get_size]
  · rw [gguf_load_quantized_tensors_closed h' tensor init (32 * m) hshape h32 htype hdata]
    have eb : bias_bits h' tensor.type tensor.weights_data
        = bias_bits h tensor.type tensor.weights_data := by
      funext i
      unfold bias_bits
      rw [hh']
    rw [eb]
  · have hn : (⟨.f16, init ++ [32 * m / 32], (List.range (init.prod * (32 * m / 32))).map
        (scale_bits tensor.type tensor.weights_data)⟩ : Tensor).get_size
        = init.prod * (32 * m / 32) := by
      simp [Tensor.get_size]
    rw [hn] at hdata'
    have hlen' : bytes_per_block tensor'.type * (init.prod * (32 * m / 32))
        ≤ tensor'.weights_data.length := by
      rw [hdata', htype', List.length_take]
      exact le_min (Nat.le_refl _) hdata
    have hc := gguf_load_quantized_tensors_closed h tensor' init (32 * m)
      (hshape'.trans hshape) h32 (by rw [htype']; exact htype) hlen'
    rw [hc, hname', htype']
    obtain ⟨cw, cs, cb⟩ := cells_congr h tensor.type tensor.weights_data tensor'.weights_data
      (init.prod * (32 * m / 32)) htype
      (fun k hk => by rw [hdata']; exact getD_take _ _ _ hk)
    rw [List.map_congr_left (fun idx hidx => cw idx (List.mem_range.mp hidx)),
      List.map_congr_left (fun i hi => cs i (List.mem_range.mp hi)),
      List.map_congr_left (fun i hi => cb i (List.mem_range.mp hi))]

/-- The contract of C19 on the two-block Q4_0 sample: 2 scales, 2 biases, 32
weight bytes in 8 words, the same outputs from a host whose fresh storage
holds `0x55`, and the same outputs from the input cut to 36 bytes. -/
theorem allocated_buffers_match_witness :
    ∃ W S B, gguf_load_quantized_tensors sample_host sample_q4_0
        = some (.ok (sample_q4_0.name, W, S, B)) ∧
      S.get_size = 2 ∧ W.data.length = 32 ∧ W.get_size = 8 ∧
      gguf_load_quantized_tensors ⟨sample_host.f16_scale, fun _ _ => 0x55⟩ sample_q4_0
        = some (.ok (sample_q4_0.name, W, S, B)) ∧
      gguf_load_quantized_tensors sample_host
          { sample_q4_0 with weights_data := sample_q4_0.weights_data.take 36 }
        = some (.ok (sample_q4_0.name, W, S, B)) := by
  obtain ⟨W, S, B, hrun, hn, _, _, hw4, hw, hhost, hcut⟩ := allocated_buffers_match
    sample_host sample_q4_0 [] 64 (by decide) (by decide) (by decide) (by decide)
  have hn2 : S.get_size = 2 := hn
  have hw32 : W.data.length = 32 := by rw [hw, hn2]; rfl
  refine ⟨W, S, B, hrun, hn2, hw32, by omega, hhost _ rfl, hcut _ rfl rfl rfl ?_⟩
  rw [hn2]
  rfl

/-! ## The nibble unpacker is lossless -/

set_option maxRecDepth 100000 in
theorem byte_facts : ∀ v, v < 256 →
    (v &&& 0x0F) ||| ((v >>> 4) <<< 4) = v ∧
    ((v >>> (4 * 0)) &&& 0x0F) ||| ((((v >>> (4 * 1)) &&& 0x0F) <<< 4) % 256) = v := by
  decide

set_option maxRecDepth 100000 in
theorem nibble_pair_facts : ∀ x, x < 16 → ∀ y, y < 16 →
    (x ||| (y <<< 4)) &&& 0x0F = x ∧ (x ||| (y <<< 4)) >>> 4 = y ∧
    x ||| ((y <<< 4) % 256) = x ||| (y <<< 4) := by
  decide

theorem code_at_lt (out : Buffer) (p : Nat) : code_at out p < 16 :=
  and_0F_lt _

theorem code_at_take (l : Buffer) (p : Nat) (hp : p < 32) :
    code_at (l.take 16) p = code_at l p := by
  unfold code_at
  rw [getD_take _ _ _ (by omega)]

theorem pack_32_4_getElem? (out : Buffer) (j : Nat) (hj : j < 16) :
    (pack_32_4 out)[j]? = some (code_at out j ||| (code_at out (16 + j) <<< 4)) := by
  unfold pack_32_4
  rw [List.getElem?_map, List.getElem?_range hj]
  rfl

/-- Packing the window `unpack_32_4` has filled gives back the 16 source code
bytes. -/
theorem pack_32_4_of_cells (data : Buffer) (dp : Nat) (out : Buffer) (wp : Nat)
    (hdata : dp + 18 ≤ data.length) (hbytes : ∀ b ∈ data, b < 256)
    (hlo : ∀ k, k < 8 → out[wp + k]? =
      some (pack_lo (data.getD (dp + (2 + 2 * k)) 0) (data.getD (dp + (2 + 2 * k + 1)) 0)))
    (hhi : ∀ k, k < 8 → out[wp + (8 + k)]? =
      some (pack_hi (data.getD (dp + (2 + 2 * k)) 0) (data.getD (dp + (2 + 2 * k + 1)) 0))) :
    pack_32_4 ((out.drop wp).take 16) = (data.drop (dp + 2)).take 16 := by
  have hb := getD_lt_of_bytes hbytes
  have hc := code_at_of_cells data dp out wp hb hlo hhi
  apply List.ext_getElem?
  intro j
  by_cases hj : j < 16
  · rw [pack_32_4_getElem? _ j hj, code_at_take _ j (by omega),
      code_at_take _ (16 + j) (by omega), hc j (by omega), hc (16 + j) (by omega),
      if_pos hj, if_neg (by omega), List.getElem?_take_of_lt hj, List.getElem?_drop]
    have e1 : 16 + j - 16 = j := by omega
    have e2 : dp + 2 + j = dp + (2 + j) := by omega
    rw [e1, e2, getElem?_of_lt (by omega), (byte_facts _ (hb (dp + (2 + j)))).1]
  · rw [List.getElem?_eq_none (by simp [pack_32_4]; omega),
      List.getElem?_eq_none (by simp; omega)]

/-- Unpacking a packed 16-byte buffer gives the buffer back. -/
theorem unpack_32_4_of_pack (o dst : Buffer) (ho : o.length = 16) (hbytes : ∀ b ∈ o, b < 256)
    (hdst : dst.length = 16) (s0 s1 : Nat) :
    unpack_32_4 (s0 :: s1 :: pack_32_4 o) 0 dst 0 = some o := by
  have hlen : (pack_32_4 o).length = 16 := by simp [pack_32_4]
  have hsrc : ∀ i, i < 16 → (s0 :: s1 :: pack_32_4 o).getD (0 + (2 + i)) 0
      = code_at o i ||| (code_at o (16 + i) <<< 4) := by
    intro i hi
    have e : 0 + (2 + i) = (i + 1) + 1 := by omega
    rw [e, List.getD_cons_succ, List.getD_cons_succ,
      getD_of_getElem? (pack_32_4_getElem? o i hi)]
  obtain ⟨out, hout, hl, _, hlo, hhi⟩ := unpack_32_4_spec (s0 :: s1 :: pack_32_4 o) 0 dst 0
    (by simp only [List.length_cons, hlen]; omega) (by omega)
  rw [hout]
  congr 1
  apply List.ext_getElem?
  intro idx
  have hob := getD_lt_of_bytes hbytes
  by_cases h16 : idx < 16
  · rw [getElem?_of_lt (by omega : idx < o.length)]
    have hcode : ∀ q r, r < 2 → code_at o (2 * q + r) = (o.getD q 0 >>> (4 * r)) &&& 0x0F := by
      intro q r hr
      unfold code_at
      have e1 : (2 * q + r) / 2 = q := by omega
      have e2 : (2 * q + r) % 2 = r := by omega
      rw [e1, e2]
    by_cases h8 : idx < 8
    · have h := hlo idx h8
      rw [Nat.zero_add] at h
      rw [h, hsrc (2 * idx) (by omega), Nat.add_assoc 2 (2 * idx) 1, hsrc (2 * idx + 1) (by omega)]
      congr 1
      unfold pack_lo
      rw [(nibble_pair_facts _ (code_at_lt o _) _ (code_at_lt o _)).1,
        (nibble_pair_facts _ (code_at_lt o _) _ (code_at_lt o _)).1]
      have c0 := hcode idx 0 (by omega)
      have c1 := hcode idx 1 (by omega)
      rw [Nat.add_zero] at c0
      rw [c0, c1]
      exact (byte_facts _ (hob idx)).2
    · obtain ⟨k, rfl⟩ : ∃ k, idx = 8 + k := ⟨idx - 8, by omega⟩
      have h := hhi k (by omega)
      rw [Nat.zero_add] at h
      rw [h, hsrc (2 * k) (by omega), Nat.add_assoc 2 (2 * k) 1, hsrc (2 * k + 1) (by omega)]
      congr 1
      unfold pack_hi
      rw [(nibble_pair_facts _ (code_at_lt o _) _ (code_at_lt o _)).2.1,
        (nibble_pair_facts _ (code_at_lt o _) _ (code_at_lt o _)).2.1]
      have c0 := hcode (8 + k) 0 (by omega)
      have c1 := hcode (8 + k) 1 (by omega)
      have e0 : 2 * (8 + k) + 0 = 16 + 2 * k := by omega
      have e1 : 2 * (8 + k) + 1 = 16 + (2 * k + 1) := by omega
      rw [e0] at c0
      rw [e1] at c1
      rw [c0, c1]
      exact (byte_facts _ (hob (8 + k))).2
  · rw [List.getElem?_eq_none (by omega), List.getElem?_eq_none (by omega)]

/-- C20. `unpack_32_4` is lossless. On a source of bytes the call returns; the
32 codes of its output window are the 32 nibbles of the 16 source code bytes
`data[2 .. 18)`, each at a fixed position; `pack_32_4` recovers those 16 bytes
from the window; two sources whose output windows are equal have equal code
bytes; and every 16-byte buffer is the output window of the source that
`pack_32_4` builds from it, so the map from code bytes to output bytes is a
bijection. -/
theorem unpack_32_4_lossless (data : Buffer) (dp : Nat) (dst : Buffer) (wp : Nat)
    (hdata : dp + 18 ≤ data.length) (hbytes : ∀ b ∈ data, b < 256)
    (hdst : wp + 16 ≤ dst.length) :
    ∃ out, unpack_32_4 data dp dst wp = some out ∧
      (∀ p, p < 32 → code_at ((out.drop wp).take 16) p =
        if p < 16 then data.getD (dp + (2 + p)) 0 &&& 0x0F
        else data.getD (dp + (2 + (p - 16))) 0 >>> 4) ∧
      pack_32_4 ((out.drop wp).take 16) = (data.drop (dp + 2)).take 16 ∧
      (∀ (data' : Buffer) (dp' : Nat) (dst' : Buffer) (wp' : Nat) (out' : Buffer),
        dp' + 18 ≤ data'.length → (∀ b ∈ data', b < 256) → wp' + 16 ≤ dst'.length →
        unpack_32_4 data' dp' dst' wp' = some out' →
        (out'.drop wp').take 16 = (out.drop wp).take 16 →
        (data'.drop (dp' + 2)).take 16 = (data.drop (dp + 2)).take 16) ∧
      (∀ (o d16 : Buffer) (s0 s1 : Nat), o.length = 16 → (∀ b ∈ o, b < 256) →
        d16.length = 16 → unpack_32_4 (s0 :: s1 :: pack_32_4 o) 0 d16 0 = some o) := by
  obtain ⟨out, hout, _, _, hlo, hhi⟩ := unpack_32_4_spec data dp dst wp hdata hdst
  have hpack := pack_32_4_of_cells data dp out wp hdata hbytes hlo hhi
  refine ⟨out, hout, fun p hp => ?_, hpack, ?_, fun o d16 s0 s1 ho hob hd =>
    unpack_32_4_of_pack o d16 ho hob hd s0 s1⟩
  · rw [code_at_take _ p hp]
    exact code_at_of_cells data dp out wp (getD_lt_of_bytes hbytes) hlo hhi p hp
  · intro data' dp' dst' wp' out' hdata' hbytes' hdst' hout' hsame
    obtain ⟨o2, ho2, _, _, hlo2, hhi2⟩ := unpack_32_4_spec data' dp' dst' wp' hdata' hdst'
    rw [hout'] at ho2
    have e := Option.some.inj ho2
    subst e
    have hpack' := pack_32_4_of_cells data' dp' out' wp' hdata' hbytes' hlo2 hhi2
    rw [← hpack', ← hpack, hsame]

/-- The contract of C20 on the block of C1: packing the 16 output bytes gives
the 16 code bytes `12 34 56 78 9A BC DE F0 01 .. 08` back. -/
theorem unpack_32_4_lossless_witness :
    ∃ out, unpack_32_4 [0, 0, 0x12, 0x34, 0x56, 0x78, 0x9A, 0xBC, 0xDE, 0xF0, 1, 2, 3, 4,
        5, 6, 7, 8] 0 (List.replicate 16 0xFF) 0 = some out ∧
      pack_32_4 ((out.drop 0).take 16)
        = [0x12, 0x34, 0x56, 0x78, 0x9A, 0xBC, 0xDE, 0xF0, 1, 2, 3, 4, 5, 6, 7, 8] := by
  obtain ⟨out, h, _, hpack, _⟩ := unpack_32_4_lossless
    [0, 0, 0x12, 0x34, 0x56, 0x78, 0x9A, 0xBC, 0xDE, 0xF0, 1, 2, 3, 4, 5, 6, 7, 8] 0
    (List.replicate 16 0xFF) 0 (by decide) (by decide) (by decide)
  exact ⟨out, h, hpack⟩

/-! ## The Q4_0 bias in half precision -/

/-- The model of `half(-8 * float(x))` on sample patterns: `1.0`, `2.0`, the
largest finite value, the smallest subnormal, `-1.0`, `+0`, the values next to
`8192`, and the largest subnormal. -/
theorem f16_scale_ieee_samples :
    [0x3C00, 0x4000, 0x7BFF, 0x0001, 0xBC00, 0x0000, 0x6FFF, 0x7000, 0x03FF].map
        (f16_scale_ieee (-8))
      = [0xC800, 0xCC00, 0xFC00, 0x8008, 0x4800, 0x8000, 0xFBFF, 0xFC00, 0x8FFE] := by
  decide

theorem f16_shift_pow (f : Nat) (hf : f < 1024) :
    ∀ (k fuel : Nat), k ≤ fuel → f16_shift fuel ((1024 + f) * 2 ^ k) = k := by
  intro k
  induction k with
  | zero =>
    intro fuel _
    cases fuel with
    | zero => rfl
    | succ n =>
      have h : (1024 + f) * 2 ^ 0 < 2048 := by omega
      simp only [f16_shift, if_pos h]
  | succ k ih =>
    intro fuel hk
    cases fuel with
    | zero => omega
    | succ n =>
      have hpos : 0 < 2 ^ k := Nat.two_pow_pos _
      have e : (1024 + f) * 2 ^ (k + 1) = 2 * ((1024 + f) * 2 ^ k) := by
        rw [Nat.pow_succ]; ring
      have hbig : 1024 ≤ (1024 + f) * 2 ^ k :=
        Nat.le_trans (by omega) (Nat.le_mul_of_pos_right _ hpos)
      have h : ¬ (1024 + f) * 2 ^ (k + 1) < 2048 := by rw [e]; omega
      have hdiv : (1024 + f) * 2 ^ (k + 1) / 2 = (1024 + f) * 2 ^ k := by rw [e]; omega
      simp only [f16_shift, if_neg h, hdiv]
      rw [ih n (by omega)]

/-- Rounding a magnitude that has 11 significant bits is exact, up to
overflow. -/
theorem f16_round_pow (f k : Nat) (hf : f < 1024) (hk : k ≤ 64) :
    f16_round ((1024 + f) * 2 ^ k)
      = if 0x7C00 ≤ (k + 1) * 1024 + f then 0x7C00 else (k + 1) * 1024 + f := by
  have hpos : 0 < 2 ^ k := Nat.two_pow_pos _
  by_cases h0 : (1024 + f) * 2 ^ k < 2048
  · have hk0 : k = 0 := by
      by_contra hne
      obtain ⟨j, rfl⟩ : ∃ j, k = j + 1 := ⟨k - 1, by omega⟩
      have hj : 0 < 2 ^ j := Nat.two_pow_pos _
      have e : (1024 + f) * 2 ^ (j + 1) = 2 * ((1024 + f) * 2 ^ j) := by
        rw [Nat.pow_succ]; ring
      have hbig : 1024 ≤ (1024 + f) * 2 ^ j :=
        Nat.le_trans (by omega) (Nat.le_mul_of_pos_right _ hj)
      omega
    subst hk0
    unfold f16_round
    rw [if_pos h0, if_neg (by omega)]
    omega
  · unfold f16_round
    rw [if_neg h0]
    simp only [f16_shift_pow f hf k 64 hk, Nat.mul_mod_left, Nat.mul_div_cancel _ hpos,
      Nat.mul_zero]
    have hno : ¬ (2 ^ k < 0 ∨ (0 = 2 ^ k ∧ (1024 + f) % 2 = 1)) := by omega
    rw [if_neg hno]
    have e : 1024 + f - 1024 = f := by omega
    rw [e]

theorem f16_units_of_fields (sg E F : Nat) (hsg : sg < 2) (hE : E < 31) (hF : F < 1024) :
    f16_units (sg * 32768 + E * 1024 + F)
      = some ((if sg = 1 then -1 else 1) *
          ((if E = 0 then F else (1024 + F) * 2 ^ (E - 1) : Nat) : Int)) := by
  have e1 : (sg * 32768 + E * 1024 + F) / 1024 % 32 = E := by omega
  have e2 : (sg * 32768 + E * 1024 + F) % 1024 = F := by omega
  have e3 : (sg * 32768 + E * 1024 + F) / 32768 % 2 = sg := by omega
  unfold f16_units f16_magnitude
  rw [e1, e2, e3, if_neg (by omega)]
  by_cases h1 : sg = 1
  · rw [if_pos h1, if_pos h1]
    by_cases hE0 : E = 0 <;> simp [hE0]
  · rw [if_neg h1, if_neg h1]
    by_cases hE0 : E = 0 <;> simp [hE0]

/-- Eight times a finite magnitude below `8192` is again a half-float
magnitude, and rounding returns its fields. -/
theorem f16_round_8_mag (E F : Nat) (hE : E < 28) (hF : F < 1024) :
    ∃ E' F', E' < 31 ∧ F' < 1024 ∧
      f16_round (8 * (if E = 0 then F else (1024 + F) * 2 ^ (E - 1))) = E' * 1024 + F' ∧
      (if E' = 0 then F' else (1024 + F') * 2 ^ (E' - 1))
        = 8 * (if E = 0 then F else (1024 + F) * 2 ^ (E - 1)) := by
  by_cases hE0 : E = 0
  · subst hE0
    simp only [if_true]
    by_cases h1 : F < 128
    · refine ⟨0, 8 * F, by omega, by omega, ?_, by simp⟩
      unfold f16_round
      rw [if_pos (by omega)]; omega
    · by_cases h2 : F < 256
      · refine ⟨1, 8 * F - 1024, by omega, by omega, ?_, ?_⟩
        · unfold f16_round
          rw [if_pos (by omega)]; omega
        · simp only [if_neg (by decide : ¬ (1 = 0)), Nat.sub_self, Nat.pow_zero]; omega
      · by_cases h3 : F < 512
        · refine ⟨2, 4 * F - 1024, by omega, by omega, ?_, ?_⟩
          · have e : 8 * F = (1024 + (4 * F - 1024)) * 2 ^ 1 := by omega
            rw [e, f16_round_pow _ 1 (by omega) (by omega), if_neg (by omega)]
          · simp only [if_neg (by decide : ¬ (2 = 0))]; omega
        · refine ⟨3, 2 * F - 1024, by omega, by omega, ?_, ?_⟩
          · have e : 8 * F = (1024 + (2 * F - 1024)) * 2 ^ 2 := by omega
            rw [e, f16_round_pow _ 2 (by omega) (by omega), if_neg (by omega)]
          · simp only [if_neg (by decide : ¬ (3 = 0))]; omega
  · have hpow : 2 ^ (E + 2) = 8 * 2 ^ (E - 1) := by
      obtain ⟨j, rfl⟩ : ∃ j, E = j + 1 := ⟨E - 1, by omega⟩
      rw [Nat.add_sub_cancel, show j + 1 + 2 = j + 3 from rfl, Nat.pow_add]; ring
    have e : 8 * ((1024 + F) * 2 ^ (E - 1)) = (1024 + F) * 2 ^ (E + 2) := by
      rw [hpow]; ring
    refine ⟨E + 3, F, by omega, hF, ?_, ?_⟩
    · rw [if_neg hE0, e, f16_round_pow F (E + 2) hF (by omega), if_neg (by omega)]
    · rw [if_neg hE0, if_neg (by omega), e, show E + 3 - 1 = E + 2 from rfl]

/-- The IEEE bias of a finite scale of magnitude below `8192` is exactly `-8`
times the scale. -/
theorem f16_scale_ieee_exact (s : Nat) (hs : s < 65536) (hsmall : s % 32768 < 0x7000) :
    bias_is_minus_8_scale s (f16_scale_ieee (-8) s) := by
  obtain ⟨sg, E, F, hsg, hE, hF, rfl⟩ : ∃ sg E F, sg < 2 ∧ E < 28 ∧ F < 1024 ∧
      s = sg * 32768 + E * 1024 + F :=
    ⟨s / 32768, s / 1024 % 32, s % 1024, by omega, by omega, by omega, by omega⟩
  obtain ⟨E', F', hE', hF', hround, hmag⟩ := f16_round_8_mag E F hE hF
  have e1 : (sg * 32768 + E * 1024 + F) / 1024 % 32 = E := by omega
  have e2 : (sg * 32768 + E * 1024 + F) % 1024 = F := by omega
  have e3 : (sg * 32768 + E * 1024 + F) / 32768 % 2 = sg := by omega
  have hbias : f16_scale_ieee (-8) (sg * 32768 + E * 1024 + F)
      = (sg + 1) % 2 * 32768 + E' * 1024 + F' := by
    unfold f16_scale_ieee f16_magnitude
    simp only [e1, e2, e3]
    rw [if_neg (by omega), if_pos (by decide : (-8 : Int) < 0),
      show (-8 : Int).natAbs = 8 from rfl, hround]
    omega
  have hbv : (if (sg + 1) % 2 = 1 then -1 else 1) *
      ((if E' = 0 then F' else (1024 + F') * 2 ^ (E' - 1) : Nat) : Int)
      = -8 * ((if sg = 1 then -1 else 1) *
        ((if E = 0 then F else (1024 + F) * 2 ^ (E - 1) : Nat) : Int)) := by
    rw [hmag]
    generalize (if E = 0 then F else (1024 + F) * 2 ^ (E - 1)) = m
    have hcases : sg = 0 ∨ sg = 1 := by omega
    rcases hcases with h0 | h1
    · subst h0; push_cast; simp
    · subst h1; push_cast; simp
  refine ⟨(if sg = 1 then -1 else 1) *
      ((if E = 0 then F else (1024 + F) * 2 ^ (E - 1) : Nat) : Int),
    (if (sg + 1) % 2 = 1 then -1 else 1) *
      ((if E' = 0 then F' else (1024 + F') * 2 ^ (E' - 1) : Nat) : Int),
    f16_units_of_fields sg E F hsg (by omega) hF, ?_, hbv, ?_⟩
  · rw [hbias]
    exact f16_units_of_fields ((sg + 1) % 2) E' F' (by omega) hE' hF'
  · intro c _ _
    rw [hbv]
    ring

/-- The IEEE bias of a finite scale of magnitude `8192` or more is the
infinity of the opposite sign. -/
theorem f16_scale_ieee_overflow (s : Nat) (hs : s < 65536) (hbig : 0x7000 ≤ s % 32768)
    (hfin : s % 32768 < 0x7C00) :
    f16_scale_ieee (-8) s = (s / 32768 + 1) % 2 * 32768 + 0x7C00 := by
  obtain ⟨sg, E, F, hsg, hE, hE', hF, rfl⟩ : ∃ sg E F, sg < 2 ∧ 28 ≤ E ∧ E < 31 ∧ F < 1024 ∧
      s = sg * 32768 + E * 1024 + F :=
    ⟨s / 32768, s / 1024 % 32, s % 1024, by omega, by omega, by omega, by omega, by omega⟩
  have e1 : (sg * 32768 + E * 1024 + F) / 1024 % 32 = E := by omega
  have e2 : (sg * 32768 + E * 1024 + F) % 1024 = F := by omega
  have e3 : (sg * 32768 + E * 1024 + F) / 32768 % 2 = sg := by omega
  have e4 : (sg * 32768 + E * 1024 + F) / 32768 = sg := by omega
  have hpow : 2 ^ (E + 2) = 8 * 2 ^ (E - 1) := by
    obtain ⟨j, rfl⟩ : ∃ j, E = j + 1 := ⟨E - 1, by omega⟩
    rw [Nat.add_sub_cancel, show j + 1 + 2 = j + 3 from rfl, Nat.pow_add]; ring
  have e : 8 * ((1024 + F) * 2 ^ (E - 1)) = (1024 + F) * 2 ^ (E + 2) := by
    rw [hpow]; ring
  unfold f16_scale_ieee f16_magnitude
  simp only [e1, e2, e3]
  rw [if_neg (by omega), if_pos (by decide : (-8 : Int) < 0),
    show (-8 : Int).natAbs = 8 from rfl, if_neg (by omega), e,
    f16_round_pow F (E + 2) hF (by omega), if_pos (by omega), e4]

/-- C15, as stated, fails. The claim reads: on every input, for every block
decoded by `extract_q4_0_data` (with the IEEE half-float product), the stored
bias is exactly `-8` times the stored scale and `c * scale + bias = (c - 8) * scale`
for every code `c`. On the block `FF 7B 00 .. 00` the scale is `0x7BFF` (65504) and
the stored bias is `0xFC00`, minus infinity. -/
theorem q4_0_bias_identity_fails :
    ¬ (∀ (h : Host) (tensor : gguf_tensor) (W S B : Tensor),
        h.f16_scale = f16_scale_ieee → (∀ b ∈ tensor.weights_data, b < 256) →
        18 * S.get_size ≤ tensor.weights_data.length → 16 * S.get_size ≤ W.data.length →
        S.get_size ≤ S.data.length → S.get_size ≤ B.data.length →
        ∃ W' S' B', extract_q4_0_data h tensor W S B = some (W', S', B') ∧
          ∀ i, i < S.get_size → ∃ s b, S'.data[i]? = some s ∧ B'.data[i]? = some b ∧
            bias_is_minus_8_scale s b) := by
  intro hclaim
  obtain ⟨W', S', B', hrun, hblocks⟩ := hclaim ieee_host sample_q4_0_large_scale
    (Tensor.alloc ieee_host 0 .u32 [4]) (Tensor.alloc ieee_host 1 .f16 [1])
    (Tensor.alloc ieee_host 2 .f16 [1]) rfl (by decide) (by decide) (by decide) (by decide)
    (by decide)
  have e : extract_q4_0_data ieee_host sample_q4_0_large_scale
      (Tensor.alloc ieee_host 0 .u32 [4]) (Tensor.alloc ieee_host 1 .f16 [1])
      (Tensor.alloc ieee_host 2 .f16 [1])
      = some (⟨.u32, [4], List.replicate 16 0⟩, ⟨.f16, [1], [0x7BFF]⟩,
          ⟨.f16, [1], [0xFC00]⟩) := by decide
  rw [e] at hrun
  have hS : S' = ⟨.f16, [1], [0x7BFF]⟩ := (congrArg (·.2.1) (Option.some.inj hrun)).symm
  have hB : B' = ⟨.f16, [1], [0xFC00]⟩ := (congrArg (·.2.2) (Option.some.inj hrun)).symm
  obtain ⟨s, b, _, hb, sv, bv, _, hbv, _⟩ := hblocks 0 (by decide)
  rw [hB] at hb
  have hb' : b = 0xFC00 := (Option.some.inj hb).symm
  rw [hb'] at hbv
  have hnone : f16_units 0xFC00 = none := by decide
  rw [hnone] at hbv
  cases hbv

/-- C15, amended. With the IEEE half-float product, for every block decoded by
`extract_q4_0_data` the scale is the 16-bit pattern copied from the block and
the bias is `half(-8 * float(scale))`; when the scale is finite with magnitude
below `8192` (pattern without its sign bit below `0x7000`) the bias is exactly
`-8` times the scale and `c * scale + bias = (c - 8) * scale` for every code `c`
in `0..15`; when the scale is finite with magnitude `8192` or more the bias is
the infinity of the opposite sign. -/
theorem q4_0_bias_is_minus_8_scale (h : Host) (tensor : gguf_tensor) (W S B : Tensor)
    (hieee : h.f16_scale = f16_scale_ieee)
    (hbytes : ∀ b ∈ tensor.weights_data, b < 256)
    (hdata : 18 * S.get_size ≤ tensor.weights_data.length)
    (hW : 16 * S.get_size ≤ W.data.length) (hS : S.get_size ≤ S.data.length)
    (hB : S.get_size ≤ B.data.length) :
    ∃ W' S' B', extract_q4_0_data h tensor W S B = some (W', S', B') ∧
      ∀ i, i < S.get_size → ∃ s b, S'.data[i]? = some s ∧ B'.data[i]? = some b ∧
        s = tensor.weights_data.getD (18 * i) 0
          + 256 * tensor.weights_data.getD (18 * i + 1) 0 ∧
        b = f16_scale_ieee (-8) s ∧
        (s % 32768 < 0x7000 → bias_is_minus_8_scale s b) ∧
        (0x7000 ≤ s % 32768 → s % 32768 < 0x7C00 →
          b = (s / 32768 + 1) % 2 * 32768 + 0x7C00) := by
  obtain ⟨w, s, b, hrun, _, _, _, _, hs, hb⟩ :=
    extract_q4_0_data_spec h tensor W S B hdata hW hS hB
  refine ⟨_, _, _, hrun, fun i hi => ?_⟩
  have hlt : u16_at tensor.weights_data (18 * i) < 65536 := by
    have h0 := getD_lt_of_bytes hbytes (18 * i)
    have h1 := getD_lt_of_bytes hbytes (18 * i + 1)
    unfold u16_at
    omega
  refine ⟨u16_at tensor.weights_data (18 * i),
    f16_scale_ieee (-8) (u16_at tensor.weights_data (18 * i)), ?_, ?_, rfl, rfl,
    fun hsmall => f16_scale_ieee_exact _ hlt hsmall,
    fun hbig hfin => f16_scale_ieee_overflow _ hlt hbig hfin⟩
  · show s[i]? = _
    rw [hs, if_pos hi]
  · show b[i]? = _
    rw [hb, if_pos hi, hieee]

/-- The amended C15 on the two-block Q4_0 sample: its first scale is `0x3C00`
(1.0) and the identity holds for it. -/
theorem q4_0_bias_is_minus_8_scale_witness :
    ∃ W' S' B', extract_q4_0_data ieee_host sample_q4_0
        (Tensor.alloc ieee_host 0 .u32 [8]) (Tensor.alloc ieee_host 1 .f16 [2])
        (Tensor.alloc ieee_host 2 .f16 [2]) = some (W', S', B') ∧
      ∃ s b, S'.data[0]? = some s ∧ B'.data[0]? = some b ∧ s = 0x3C00 ∧
        bias_is_minus_8_scale s b := by
  obtain ⟨W', S', B', hrun, hblocks⟩ := q4_0_bias_is_minus_8_scale ieee_host sample_q4_0
    (Tensor.alloc ieee_host 0 .u32 [8]) (Tensor.alloc ieee_host 1 .f16 [2])
    (Tensor.alloc ieee_host 2 .f16 [2]) rfl (by decide) (by decide) (by decide) (by decide)
    (by decide)
  obtain ⟨s, b, hs, hb, hseq, _, hsmall, _⟩ := hblocks 0 (by decide)
  have hval : s = 0x3C00 := hseq
  exact ⟨W', S', B', hrun, s, b, hs, hb, hval, hsmall (by rw [hval]; decide)⟩

end GGUFQuants
